import Mathlib

/-!
Shallow embedding of the trevito-dashboard channel ingestion engine
(Supabase edge functions: shiprocket sync, amazon sync, flipkart sync,
flipkart cancelled-shipments purge, vyapar spreadsheet import, api-key
refresh job), together with proofs about the behaviour of the embedded
code.  Amounts are modelled as rationals, machine timestamps as integers
(milliseconds), and the persistence gateway (PostgREST upsert-by-natural-
key / delete-by-key-set) as explicit list transformations.
-/

namespace Trevito

/-- Persistence-gateway model: upsert of one row keyed by a natural key.
If a row with the same key exists it is fully replaced (replace-on-conflict,
no field merge); otherwise the row is appended. -/
def upsertRow {α κ : Type} [DecidableEq κ] (key : α → κ) (store : List α) (row : α) : List α :=
  if store.any (fun r => key r = key row) then
    store.map (fun r => if key r = key row then row else r)
  else
    store ++ [row]

theorem key_mem_upsertRow {α κ : Type} [DecidableEq κ] (key : α → κ)
    (store : List α) (row : α) (k : κ) :
    (∃ r ∈ upsertRow key store row, key r = k) ↔
      key row = k ∨ ∃ r ∈ store, key r = k := by
  unfold upsertRow
  by_cases h : store.any (fun r => key r = key row)
  · rw [if_pos h]
    constructor
    · rintro ⟨r, hr, hk⟩
      rcases List.mem_map.mp hr with ⟨x, hx, hfx⟩
      by_cases hxk : key x = key row
      · left; rw [if_pos hxk] at hfx; rw [← hfx] at hk; exact hk
      · right; rw [if_neg hxk] at hfx; subst hfx; exact ⟨x, hx, hk⟩
    · rintro (hk | ⟨r, hr, hk⟩)
      · rcases List.any_eq_true.mp h with ⟨x, hx, hxk⟩
        simp only [decide_eq_true_eq] at hxk
        refine ⟨row, List.mem_map.mpr ⟨x, hx, ?_⟩, hk⟩
        rw [if_pos hxk]
      · by_cases hrk : key r = key row
        · refine ⟨row, List.mem_map.mpr ⟨r, hr, ?_⟩, ?_⟩
          · rw [if_pos hrk]
          · rw [← hrk]; exact hk
        · exact ⟨r, List.mem_map.mpr ⟨r, hr, by rw [if_neg hrk]⟩, hk⟩
  · rw [if_neg h]
    constructor
    · rintro ⟨r, hr, hk⟩
      rcases List.mem_append.mp hr with hr | hr
      · exact Or.inr ⟨r, hr, hk⟩
      · left; rcases List.mem_singleton.mp hr with rfl; exact hk
    · rintro (hk | ⟨r, hr, hk⟩)
      · exact ⟨row, List.mem_append.mpr (Or.inr (List.mem_singleton.mpr rfl)), hk⟩
      · exact ⟨r, List.mem_append.mpr (Or.inl hr), hk⟩

/-- Persistence-gateway model: upsert of a batch of rows, applied in payload
order (a later payload row with the same key wins). -/
def upsertRows {α κ : Type} [DecidableEq κ] (key : α → κ) (store : List α) (rows : List α) : List α :=
  rows.foldl (upsertRow key) store

theorem key_mem_upsertRows {α κ : Type} [DecidableEq κ] (key : α → κ)
    (store : List α) (rows : List α) (k : κ) :
    (∃ r ∈ upsertRows key store rows, key r = k) ↔
      (∃ r ∈ rows, key r = k) ∨ ∃ r ∈ store, key r = k := by
  induction rows generalizing store with
  | nil => simp [upsertRows]
  | cons row rest ih =>
    show (∃ r ∈ upsertRows key (upsertRow key store row) rest, key r = k) ↔ _
    rw [ih, key_mem_upsertRow]
    constructor
    · rintro (h | h | h)
      · rcases h with ⟨r, hr, hk⟩
        exact Or.inl ⟨r, List.mem_cons_of_mem _ hr, hk⟩
      · exact Or.inl ⟨row, List.mem_cons_self _ _, h⟩
      · exact Or.inr h
    · rintro (⟨r, hr, hk⟩ | h)
      · rcases List.mem_cons.mp hr with rfl | hr
        · exact Or.inr (Or.inl hk)
        · exact Or.inl ⟨r, hr, hk⟩
      · exact Or.inr (Or.inr h)

theorem mem_upsertRow_of_ne_key {α κ : Type} [DecidableEq κ] (key : α → κ)
    (store : List α) (row : α) (r : α) (h : key row ≠ key r) :
    r ∈ upsertRow key store row ↔ r ∈ store := by
  unfold upsertRow
  by_cases hc : store.any (fun x => key x = key row)
  · rw [if_pos hc]
    constructor
    · intro hm
      rcases List.mem_map.mp hm with ⟨x, hx, hfx⟩
      by_cases hxk : key x = key row
      · rw [if_pos hxk] at hfx
        exact absurd (congrArg key hfx) h
      · rw [if_neg hxk] at hfx; exact hfx ▸ hx
    · intro hm
      refine List.mem_map.mpr ⟨r, hm, ?_⟩
      rw [if_neg (fun hh => h hh.symm)]
  · rw [if_neg hc]
    rw [List.mem_append, List.mem_singleton]
    constructor
    · rintro (hm | rfl)
      · exact hm
      · exact absurd rfl h
    · exact Or.inl

theorem mem_upsertRows_of_ne_key {α κ : Type} [DecidableEq κ] (key : α → κ)
    (store : List α) (rows : List α) (r : α)
    (h : ∀ row ∈ rows, key row ≠ key r) :
    r ∈ upsertRows key store rows ↔ r ∈ store := by
  induction rows generalizing store with
  | nil => exact Iff.rfl
  | cons row rest ih =>
    show r ∈ upsertRows key (upsertRow key store row) rest ↔ _
    rw [ih _ (fun x hx => h x (List.mem_cons_of_mem _ hx)),
      mem_upsertRow_of_ne_key key store row r (h row (List.mem_cons_self _ _))]

/-- Lookup in an association list modelling a JS Map (first entry wins). -/
def alookup {κ α : Type} [DecidableEq κ] (m : List (κ × α)) (k : κ) : Option α :=
  (m.find? (fun e => e.1 = k)).map Prod.snd

theorem alookup_append_absent {κ α : Type} [DecidableEq κ] (m : List (κ × α)) (k : κ) (v : α)
    (h : alookup m k = none) : alookup (m ++ [(k, v)]) k = some v := by
  have hf : m.find? (fun e => decide (e.1 = k)) = none := by
    rcases hff : m.find? (fun e => decide (e.1 = k)) with _ | e
    · exact hff
    · rw [show alookup m k = (m.find? (fun e => decide (e.1 = k))).map Prod.snd from rfl,
        hff] at h
      exact Option.noConfusion h
  show (List.find? (fun e => decide (e.1 = k)) (m ++ [(k, v)])).map Prod.snd = _
  rw [List.find?_append, hf, Option.none_or, List.find?_cons_of_pos _ (by simp)]
  rfl

theorem alookup_append_other {κ α : Type} [DecidableEq κ] (m : List (κ × α)) (k2 : κ) (v : α)
    (k : κ) (h : k2 ≠ k) : alookup (m ++ [(k2, v)]) k = alookup m k := by
  show (List.find? (fun e => decide (e.1 = k)) (m ++ [(k2, v)])).map Prod.snd = _
  rw [List.find?_append]
  have hsg : List.find? (fun e => decide (e.1 = k)) [(k2, v)] = none := by
    rw [List.find?_cons_of_neg _ (by simp [h])]
    rfl
  rw [hsg, Option.or_none]
  rfl

theorem alookup_replace_same {κ α : Type} [DecidableEq κ] (m : List (κ × α)) (k : κ) (v : α) :
    alookup (m.map (fun e => if e.1 = k then (k, v) else e)) k =
      (alookup m k).map (fun _ => v) := by
  show (List.find? (fun e => decide (e.1 = k))
    (m.map (fun e => if e.1 = k then (k, v) else e))).map Prod.snd = _
  rw [List.find?_map]
  have hpf : ((fun e : κ × α => decide (e.1 = k)) ∘ (fun e => if e.1 = k then (k, v) else e)) =
      (fun e : κ × α => decide (e.1 = k)) := by
    funext e
    by_cases he : e.1 = k <;> simp [he]
  rw [hpf]
  have hrhs : alookup m k = (m.find? (fun e => decide (e.1 = k))).map Prod.snd := rfl
  rw [hrhs]
  rcases hff : m.find? (fun e => decide (e.1 = k)) with _ | e0
  · rw [hff]
    rfl
  · have he0 : e0.1 = k := by
      have := List.find?_some hff
      simpa using this
    rw [hff]
    simp only [Option.map_some']
    rw [if_pos he0]

theorem alookup_replace_other {κ α : Type} [DecidableEq κ] (m : List (κ × α)) (k2 : κ) (v : α)
    (k : κ) (h : k2 ≠ k) :
    alookup (m.map (fun e => if e.1 = k2 then (k2, v) else e)) k = alookup m k := by
  show (List.find? (fun e => decide (e.1 = k))
    (m.map (fun e => if e.1 = k2 then (k2, v) else e))).map Prod.snd = _
  rw [List.find?_map]
  have hpf : ((fun e : κ × α => decide (e.1 = k)) ∘ (fun e => if e.1 = k2 then (k2, v) else e)) =
      (fun e : κ × α => decide (e.1 = k)) := by
    funext e
    by_cases he : e.1 = k2 <;> simp [he]
  rw [hpf]
  have hrhs : alookup m k = (m.find? (fun e => decide (e.1 = k))).map Prod.snd := rfl
  rw [hrhs]
  rcases hff : m.find? (fun e => decide (e.1 = k)) with _ | e0
  · rw [hff]
    rfl
  · have he0 : e0.1 = k := by
      have := List.find?_some hff
      simpa using this
    have hne : ¬(e0.1 = k2) := by
      rw [he0]; exact fun hs => h hs.symm
    rw [hff]
    simp only [Option.map_some']
    rw [if_neg hne]

theorem filter_key_of_nodup {κ α : Type} [DecidableEq κ] (m : List (κ × α)) (k : κ)
    (h : (m.map Prod.fst).Nodup) :
    m.filter (fun e => e.1 = k) =
      match m.find? (fun e => e.1 = k) with
      | none => []
      | some e => [e] := by
  induction m with
  | nil => rfl
  | cons e rest ih =>
    rw [List.map_cons] at h
    rcases List.nodup_cons.mp h with ⟨hhead, htail⟩
    by_cases he : e.1 = k
    · rw [List.filter_cons_of_pos (by simp [he]), List.find?_cons_of_pos _ (by simp [he])]
      have hrest : rest.filter (fun x => decide (x.1 = k)) = [] := by
        rw [List.filter_eq_nil_iff]
        intro x hx
        simp only [decide_eq_true_eq]
        intro hxk
        exact hhead (List.mem_map.mpr ⟨x, hx, by rw [hxk, he]⟩)
      rw [hrest]
    · rw [List.filter_cons_of_neg (by simp [he]), List.find?_cons_of_neg _ (by simp [he])]
      exact ih htail

/-- A JavaScript value fed to a numeric parser: null-or-undefined, a string,
or a number (source parameter type: string | number | undefined | null). -/
inductive NumInput : Type
  | null : NumInput
  | str : String → NumInput
  | num : ℚ → NumInput
deriving DecidableEq

/-- Digits of a decimal string folded into a natural number. -/
def digitsToNat (cs : List Char) : Nat :=
  cs.foldl (fun a c => a * 10 + (c.toNat - 48)) 0

/-- Model of the JavaScript Number(string) conversion on the decimal forms
the repository feeds it: an unsigned decimal literal, digits with at most one
decimal point and at least one digit ("12", "12.", ".5", "12.5").  Any other
character sequence is NaN (modelled as none).  Exponent, hexadecimal and
Infinity forms never arise from the inputs the code passes and are modelled
as NaN. -/
def parseUnsignedDec (cs : List Char) : Option ℚ :=
  let intPart := cs.takeWhile (fun c => c ≠ '.')
  let rest := cs.dropWhile (fun c => c ≠ '.')
  match rest with
  | [] =>
    if intPart ≠ [] ∧ intPart.all Char.isDigit then some (digitsToNat intPart) else none
  | _ :: frac =>
    if frac.contains '.' then none
    else if intPart = [] ∧ frac = [] then none
    else if intPart.all Char.isDigit ∧ frac.all Char.isDigit then
      some ((digitsToNat intPart : ℚ) + (digitsToNat frac : ℚ) / (10 : ℚ) ^ frac.length)
    else none

/-- Whitespace trim on a character list, modelling the trim JavaScript
Number(string) applies to its argument. -/
def trimWs (cs : List Char) : List Char :=
  ((cs.dropWhile Char.isWhitespace).reverse.dropWhile Char.isWhitespace).reverse

/-- Model of JavaScript Number(string): trims whitespace, maps the empty
string to 0, handles an optional sign, otherwise parses a decimal literal;
NaN is modelled as none. -/
def jsNumber (s : String) : Option ℚ :=
  match trimWs s.data with
  | [] => some 0
  | '+' :: rest => parseUnsignedDec rest
  | '-' :: rest => (parseUnsignedDec rest).map Neg.neg
  | cs => parseUnsignedDec cs

/-- Model of the JavaScript String(number) conversion followed by Number():
for the finite decimals the repository handles this round-trips. -/
def jsNumOfNum (q : ℚ) : ℚ := q

/-- Model of Number(value.toFixed(2)): round to two decimal places. -/
def toFixed2 (q : ℚ) : ℚ := (round (q * 100) : ℤ) / 100

/-- JavaScript truthiness of an optional string: undefined, null and the
empty string are falsy. -/
def truthyStr : Option String → Option String
  | some s => if s = "" then none else some s
  | none => none

/-- Model of JavaScript toLowerCase on the character list. -/
def lowerStr (s : String) : String := String.mk (s.data.map Char.toLower)

/-- Model of JavaScript toUpperCase on the character list. -/
def upperStr (s : String) : String := String.mk (s.data.map Char.toUpper)

namespace Shiprocket

/-- The regex replace in the shiprocket parseNumber:
String(value).replace of every character outside 0-9, dot, minus with
the empty string. -/
def stripNonNumeric (s : String) : String :=
  String.mk (s.data.filter (fun c => c.isDigit || c = '.' || c = '-'))

/-- Shiprocket parseNumber: null/undefined or the empty string give 0;
otherwise the stripped string is parsed and NaN falls back to 0. -/
def parseNumber : NumInput → ℚ
  | NumInput.null => 0
  | NumInput.str s =>
    if s = "" then 0
    else match jsNumber (stripNonNumeric s) with
      | some q => q
      | none => 0
  | NumInput.num q => jsNumOfNum q

/-- One entry of ShiprocketOrder.products. -/
structure SRProduct where
  channel_sku : String
  quantity : ℚ
  mrp : ℚ
  discount_including_tax : ℚ
deriving DecidableEq

/-- The fields of a ShiprocketOrder used by the item write path. -/
structure SROrder where
  id : Nat
  products : List SRProduct
deriving DecidableEq

/-- A row of sales.shiprocket_items. -/
structure SRItemRow where
  shiprocket_order_id : Nat
  sku : String
  quantity : ℚ
  selling_price : ℚ
deriving DecidableEq

/-- Natural key of sales.shiprocket_items (onConflict shiprocket_order_id,sku). -/
def srItemKey (r : SRItemRow) : Nat × String :=
  (r.shiprocket_order_id, r.sku)

/-- itemsToInsert: one row per product of every fetched order. -/
def itemsToInsert (orders : List SROrder) : List SRItemRow :=
  orders.flatMap (fun order =>
    order.products.map (fun product =>
      { shiprocket_order_id := order.id
        sku := product.channel_sku
        quantity := product.quantity
        selling_price := parseNumber (NumInput.num product.mrp) -
          parseNumber (NumInput.num product.discount_including_tax) }))

/-- The deduplicated sku list recorded for one order id in skusByOrder:
the value set by the last batch entry with that id (JS object assignment,
last write wins), deduplicated (Array.from(new Set(...))). -/
def skusFor (orders : List SROrder) (oid : Nat) : List String :=
  match (orders.filter (fun o => o.id = oid)).getLast? with
  | some o => (o.products.map (fun p => p.channel_sku)).dedup
  | none => []

/-- The order ids of skusByOrder in enumeration order: JS objects enumerate
integer-like keys in ascending numeric order, deduplicated. -/
def orderIdsAsc (orders : List SROrder) : List Nat :=
  ((orders.map (fun o => o.id)).dedup).mergeSort (fun a b => a ≤ b)

/-- Object.entries(skusByOrder). -/
def skusByOrder (orders : List SROrder) : List (Nat × List String) :=
  (orderIdsAsc orders).map (fun oid => (oid, skusFor orders oid))

/-- The per-order cleanup loop: for each entry with a nonempty sku list,
delete stored item rows of that order whose sku is not in the list
(.delete().eq(order).not(sku in set)); entries with an empty sku list are
skipped (continue). -/
def applyItemCleanup (store : List SRItemRow) (entries : List (Nat × List String)) : List SRItemRow :=
  entries.foldl
    (fun st e =>
      if e.2 = [] then st
      else st.filter (fun r => ¬(r.shiprocket_order_id = e.1 ∧ r.sku ∉ e.2)))
    store

/-- The item write phase of the shiprocket sync: if itemsToInsert is nonempty,
upsert it (onConflict shiprocket_order_id,sku) and then run the per-order
cleanup; if it is empty, nothing at all happens to the item store. -/
def syncShiprocketItems (store : List SRItemRow) (orders : List SROrder) : List SRItemRow :=
  let items := itemsToInsert orders
  if items = [] then store
  else applyItemCleanup (upsertRows srItemKey store items) (skusByOrder orders)

theorem mem_applyItemCleanup (store : List SRItemRow) (entries : List (Nat × List String))
    (r : SRItemRow) :
    r ∈ applyItemCleanup store entries ↔
      r ∈ store ∧ ∀ e ∈ entries, e.2 ≠ [] → ¬(r.shiprocket_order_id = e.1 ∧ r.sku ∉ e.2) := by
  induction entries generalizing store with
  | nil => simp [applyItemCleanup]
  | cons e rest ih =>
    show r ∈ applyItemCleanup (if e.2 = [] then store else _) rest ↔ _
    by_cases he : e.2 = []
    · rw [if_pos he, ih]
      constructor
      · rintro ⟨hs, hall⟩
        refine ⟨hs, ?_⟩
        intro x hx hxne
        rcases List.mem_cons.mp hx with rfl | hx
        · exact absurd he hxne
        · exact hall x hx hxne
      · rintro ⟨hs, hall⟩
        exact ⟨hs, fun x hx => hall x (List.mem_cons_of_mem _ hx)⟩
    · rw [if_neg he, ih]
      constructor
      · rintro ⟨hs, hall⟩
        rcases List.mem_filter.mp hs with ⟨hs, hcond⟩
        simp only [decide_eq_true_eq, not_and, not_not] at hcond
        refine ⟨hs, ?_⟩
        intro x hx hxne
        rcases List.mem_cons.mp hx with rfl | hx
        · rintro ⟨ha, hb⟩
          exact hb (hcond ha)
        · exact hall x hx hxne
      · rintro ⟨hs, hall⟩
        refine ⟨List.mem_filter.mpr ⟨hs, ?_⟩, fun x hx => hall x (List.mem_cons_of_mem _ hx)⟩
        simp only [decide_eq_true_eq, not_and, not_not]
        intro ha
        have := hall e (List.mem_cons_self _ _) he
        simp only [not_and, not_not] at this
        exact this ha

theorem mem_orderIdsAsc (orders : List SROrder) (oid : Nat) :
    oid ∈ orderIdsAsc orders ↔ oid ∈ orders.map (fun o => o.id) := by
  unfold orderIdsAsc
  rw [List.mem_mergeSort, List.mem_dedup]

theorem mem_skusByOrder (orders : List SROrder) (e : Nat × List String) :
    e ∈ skusByOrder orders ↔
      e.1 ∈ orders.map (fun o => o.id) ∧ e.2 = skusFor orders e.1 := by
  unfold skusByOrder
  rw [List.mem_map]
  constructor
  · rintro ⟨oid, hm, rfl⟩
    exact ⟨(mem_orderIdsAsc orders oid).mp hm, rfl⟩
  · rintro ⟨hm, hv⟩
    exact ⟨e.1, (mem_orderIdsAsc orders e.1).mpr hm, by rw [← hv]⟩

theorem itemsToInsert_key_mem (orders : List SROrder) (row : SRItemRow)
    (h : row ∈ itemsToInsert orders) : row.shiprocket_order_id ∈ orders.map (fun o => o.id) := by
  rcases List.mem_flatMap.mp h with ⟨o, ho, hrow⟩
  rcases List.mem_map.mp hrow with ⟨p, _, rfl⟩
  exact List.mem_map.mpr ⟨o, ho, rfl⟩

theorem skusFor_key_in_items (orders : List SROrder) (oid : Nat) (s : String)
    (h : s ∈ skusFor orders oid) :
    ∃ row ∈ itemsToInsert orders, srItemKey row = (oid, s) := by
  unfold skusFor at h
  rcases hlast : (orders.filter (fun o => o.id = oid)).getLast? with _ | o
  · rw [hlast] at h; exact absurd h (List.not_mem_nil s)
  · rw [hlast] at h
    have ho : o ∈ orders.filter (fun o => o.id = oid) := List.mem_of_mem_getLast? hlast
    rcases List.mem_filter.mp ho with ⟨homem, hoid⟩
    simp only [decide_eq_true_eq] at hoid
    rcases List.mem_map.mp (List.mem_dedup.mp h) with ⟨p, hp, hps⟩
    refine ⟨{ shiprocket_order_id := o.id, sku := p.channel_sku,
              quantity := p.quantity,
              selling_price := parseNumber (NumInput.num p.mrp) -
                parseNumber (NumInput.num p.discount_including_tax) }, ?_, ?_⟩
    · exact List.mem_flatMap.mpr ⟨o, homem, List.mem_map.mpr ⟨p, hp, rfl⟩⟩
    · simp [srItemKey, hoid, hps]

theorem itemsToInsert_ne_nil (orders : List SROrder) (oid : Nat)
    (h : skusFor orders oid ≠ []) : itemsToInsert orders ≠ [] := by
  have : ∃ s, s ∈ skusFor orders oid := by
    rcases hsk : skusFor orders oid with _ | ⟨s, rest⟩
    · exact absurd hsk h
    · exact ⟨s, List.mem_cons_self _ _⟩
  rcases this with ⟨s, hs⟩
  rcases skusFor_key_in_items orders oid s hs with ⟨row, hrow, _⟩
  intro hnil
  rw [hnil] at hrow
  exact List.not_mem_nil row hrow

/-- Item authority for one touched shiprocket order whose current batch has a
nonempty sku set: after the item write phase, the stored keys for that order
are exactly the skus the batch reports for it. -/
theorem shiprocket_item_authority (store : List SRItemRow) (orders : List SROrder) (oid : Nat)
    (hmem : oid ∈ orders.map (fun o => o.id)) (hne : skusFor orders oid ≠ []) (s : String) :
    (∃ r ∈ syncShiprocketItems store orders,
        r.shiprocket_order_id = oid ∧ r.sku = s) ↔ s ∈ skusFor orders oid := by
  unfold syncShiprocketItems
  rw [if_neg (itemsToInsert_ne_nil orders oid hne)]
  constructor
  · rintro ⟨r, hr, hoid, hsku⟩
    rcases (mem_applyItemCleanup _ _ r).mp hr with ⟨_, hall⟩
    have := hall (oid, skusFor orders oid)
      ((mem_skusByOrder orders _).mpr ⟨hmem, rfl⟩) hne
    simp only [not_and, not_not] at this
    rw [← hsku]
    exact this hoid
  · intro hs
    rcases skusFor_key_in_items orders oid s hs with ⟨row, hrow, hkey⟩
    have hkmem : ∃ r ∈ upsertRows srItemKey store (itemsToInsert orders), srItemKey r = (oid, s) :=
      (key_mem_upsertRows srItemKey store _ _).mpr (Or.inl ⟨row, hrow, hkey⟩)
    rcases hkmem with ⟨r, hr, hrkey⟩
    have hroid : r.shiprocket_order_id = oid := congrArg Prod.fst hrkey
    have hrsku : r.sku = s := congrArg Prod.snd hrkey
    refine ⟨r, ?_, hroid, hrsku⟩
    rw [mem_applyItemCleanup]
    refine ⟨hr, ?_⟩
    intro e he hene
    rcases (mem_skusByOrder orders e).mp he with ⟨_, hval⟩
    rintro ⟨heoid, hesku⟩
    rw [hval] at hesku
    rw [hroid] at heoid
    rw [← heoid] at hesku
    rw [hrsku] at hesku
    exact hesku hs

/-- Items of orders not touched by the shiprocket run are preserved exactly. -/
theorem shiprocket_untouched_preserved (store : List SRItemRow) (orders : List SROrder)
    (r : SRItemRow) (h : r.shiprocket_order_id ∉ orders.map (fun o => o.id)) :
    r ∈ syncShiprocketItems store orders ↔ r ∈ store := by
  unfold syncShiprocketItems
  by_cases hi : itemsToInsert orders = []
  · rw [if_pos hi]
  · rw [if_neg hi, mem_applyItemCleanup]
    have hup : r ∈ upsertRows srItemKey store (itemsToInsert orders) ↔ r ∈ store := by
      refine mem_upsertRows_of_ne_key srItemKey store _ r ?_
      intro row hrow hk
      have := itemsToInsert_key_mem orders row hrow
      rw [show row.shiprocket_order_id = r.shiprocket_order_id from congrArg Prod.fst hk] at this
      exact h this
    rw [hup]
    constructor
    · exact And.left
    · intro hs
      refine ⟨hs, ?_⟩
      intro e he _
      rcases (mem_skusByOrder orders e).mp he with ⟨hekey, _⟩
      rintro ⟨heoid, _⟩
      rw [heoid] at h
      exact h hekey

end Shiprocket

namespace Amazon

/-- One entry of AmazonOrder.orderItems (the fields the sync reads). -/
structure AZItem where
  orderItemId : Option String
  quantityOrdered : Option ℚ
  sellerSku : Option String
  unitPriceAmount : NumInput
deriving DecidableEq

/-- The fields of an AmazonOrder used by the sync. -/
structure AZOrder where
  orderId : String
  channelName : Option String
  createdTime : Option String
  fulfillmentStatus : Option String
  city : Option String
  stateOrRegion : Option String
  postalCode : Option String
  orderItems : List AZItem
deriving DecidableEq

/-- Amazon parseAmount: null/undefined or the empty string give null;
otherwise Number(value), with NaN giving null.  No character stripping. -/
def parseAmount : NumInput → Option ℚ
  | NumInput.null => none
  | NumInput.str s => if s = "" then none else jsNumber s
  | NumInput.num q => some (jsNumOfNum q)

/-- Amazon toFixedNumber: null passes through, otherwise two-decimal rounding. -/
def toFixedNumber : Option ℚ → Option ℚ
  | none => none
  | some q => some (toFixed2 q)

/-- The NON_AMAZON filter predicate: an order is kept unless its
salesChannel.channelName upper-cases to the literal NON_AMAZON. -/
def keepOrder (o : AZOrder) : Bool :=
  o.channelName.map upperStr ≠ some "NON_AMAZON"

/-- filteredOrders: every fetched order whose channel name upper-cases to
NON_AMAZON is dropped before normalization and persistence. -/
def filteredOrders (orders : List AZOrder) : List AZOrder :=
  orders.filter keepOrder

/-- A row of sales.amazon_orders. -/
structure AZOrderRow where
  order_id : String
  order_date : Option String
  order_status : Option String
  customer_city : Option String
  customer_state : Option String
  customer_pincode : Option String
  last_accessed_at : String
deriving DecidableEq

/-- The sales.amazon_orders row built from one kept order; pd models the
JavaScript Date parse composed with toISOString. -/
def azOrderRowOf (pd : String → Option String) (nowIso : String) (o : AZOrder) : AZOrderRow :=
  { order_id := o.orderId
    order_date := o.createdTime.bind pd
    order_status := o.fulfillmentStatus
    customer_city := o.city
    customer_state := o.stateOrRegion
    customer_pincode := o.postalCode
    last_accessed_at := nowIso }

/-- ordersToUpsert of the amazon sync. -/
def azOrdersToUpsert (pd : String → Option String) (nowIso : String)
    (orders : List AZOrder) : List AZOrderRow :=
  (filteredOrders orders).map (azOrderRowOf pd nowIso)

/-- A row of sales.amazon_items. -/
structure AZItemRow where
  order_id : String
  amazon_item_id : Option String
  sku : Option String
  quantity : ℚ
  unit_price : Option ℚ
  net_revenue : Option ℚ
deriving DecidableEq

/-- The sales.amazon_items row built from one order item: quantity defaults
to 0, gross revenue is unit price times quantity, net revenue divides by the
fixed 1.18 tax factor, and both monetary outputs are two-decimal rounded. -/
def azItemRowOf (order : AZOrder) (item : AZItem) : AZItemRow :=
  let quantity := item.quantityOrdered.getD 0
  let unitPrice := parseAmount item.unitPriceAmount
  let grossRevenue := unitPrice.map (fun u => u * quantity)
  let netRevenue := grossRevenue.map (fun g => g / (1.18 : ℚ))
  { order_id := order.orderId
    amazon_item_id := item.orderItemId
    sku := item.sellerSku
    quantity := quantity
    unit_price := toFixedNumber unitPrice
    net_revenue := toFixedNumber netRevenue }

/-- itemsToUpsert of the amazon sync (built from the filtered orders only). -/
def azItemsToUpsert (filtered : List AZOrder) : List AZItemRow :=
  filtered.flatMap (fun order => order.orderItems.map (azItemRowOf order))

/-- Natural key of sales.amazon_items (onConflict order_id,amazon_item_id). -/
def azItemKey (r : AZItemRow) : String × Option String :=
  (r.order_id, r.amazon_item_id)

/-- Upsert into sales.amazon_items: rows with a null amazon_item_id never
conflict (SQL NULL is distinct from NULL in a unique index) and are plain
inserts; rows with a present item id replace on conflict. -/
def azItemKeyedUpsert (store rows : List AZItemRow) : List AZItemRow :=
  rows.foldl
    (fun st row =>
      match row.amazon_item_id with
      | none => st ++ [row]
      | some _ => upsertRow azItemKey st row)
    store

/-- The item write phase of the amazon sync: delete every stored item of the
touched orders, then upsert the batch rows. -/
def syncAmazonItems (store : List AZItemRow) (orders : List AZOrder) : List AZItemRow :=
  let filtered := filteredOrders orders
  let items := azItemsToUpsert filtered
  let orderIds := filtered.map (fun o => o.orderId)
  let store1 := if orderIds = [] then store else store.filter (fun r => r.order_id ∉ orderIds)
  if items = [] then store1 else azItemKeyedUpsert store1 items

/-- orders_processed of the amazon success response. -/
def azOrdersProcessed (pd : String → Option String) (nowIso : String)
    (orders : List AZOrder) : Nat :=
  (azOrdersToUpsert pd nowIso orders).length

/-- items_processed of the amazon success response. -/
def azItemsProcessed (orders : List AZOrder) : Nat :=
  (azItemsToUpsert (filteredOrders orders)).length

theorem key_mem_azItemKeyedUpsert (store rows : List AZItemRow) (k : String × Option String) :
    (∃ r ∈ azItemKeyedUpsert store rows, azItemKey r = k) ↔
      (∃ r ∈ rows, azItemKey r = k) ∨ ∃ r ∈ store, azItemKey r = k := by
  induction rows generalizing store with
  | nil => simp [azItemKeyedUpsert]
  | cons row rest ih =>
    have hstep : ∀ st : List AZItemRow,
        azItemKeyedUpsert st (row :: rest) =
          azItemKeyedUpsert
            (match row.amazon_item_id with
             | none => st ++ [row]
             | some _ => upsertRow azItemKey st row) rest := by
      intro st; rfl
    rw [hstep]
    rcases hid : row.amazon_item_id with _ | iid
    · rw [ih]
      constructor
      · rintro (h | ⟨r, hr, hk⟩)
        · rcases h with ⟨r, hr, hk⟩
          exact Or.inl ⟨r, List.mem_cons_of_mem _ hr, hk⟩
        · rcases List.mem_append.mp hr with hr | hr
          · exact Or.inr ⟨r, hr, hk⟩
          · rcases List.mem_singleton.mp hr with rfl
            exact Or.inl ⟨r, List.mem_cons_self _ _, hk⟩
      · rintro (⟨r, hr, hk⟩ | ⟨r, hr, hk⟩)
        · rcases List.mem_cons.mp hr with rfl | hr
          · exact Or.inr ⟨r, List.mem_append.mpr (Or.inr (List.mem_singleton.mpr rfl)), hk⟩
          · exact Or.inl ⟨r, hr, hk⟩
        · exact Or.inr ⟨r, List.mem_append.mpr (Or.inl hr), hk⟩
    · rw [ih]
      constructor
      · rintro (h | h)
        · rcases h with ⟨r, hr, hk⟩
          exact Or.inl ⟨r, List.mem_cons_of_mem _ hr, hk⟩
        · rcases (key_mem_upsertRow azItemKey store row k).mp h with hk | h
          · exact Or.inl ⟨row, List.mem_cons_self _ _, hk⟩
          · exact Or.inr h
      · rintro (⟨r, hr, hk⟩ | h)
        · rcases List.mem_cons.mp hr with rfl | hr
          · exact Or.inr ((key_mem_upsertRow azItemKey store r k).mpr (Or.inl hk))
          · exact Or.inl ⟨r, hr, hk⟩
        · exact Or.inr ((key_mem_upsertRow azItemKey store row k).mpr (Or.inr h))

theorem mem_azItemKeyedUpsert_of_ne (store rows : List AZItemRow) (r : AZItemRow)
    (h : ∀ row ∈ rows, row.order_id ≠ r.order_id) :
    r ∈ azItemKeyedUpsert store rows ↔ r ∈ store := by
  induction rows generalizing store with
  | nil => exact Iff.rfl
  | cons row rest ih =>
    have hstep : azItemKeyedUpsert store (row :: rest) =
        azItemKeyedUpsert
          (match row.amazon_item_id with
           | none => store ++ [row]
           | some _ => upsertRow azItemKey store row) rest := rfl
    rw [hstep, ih _ (fun x hx => h x (List.mem_cons_of_mem _ hx))]
    rcases row.amazon_item_id with _ | iid
    · rw [List.mem_append, List.mem_singleton]
      constructor
      · rintro (hm | rfl)
        · exact hm
        · exact absurd rfl (h r (List.mem_cons_self _ _))
      · exact Or.inl
    · refine mem_upsertRow_of_ne_key azItemKey store row r ?_
      intro hk
      exact h row (List.mem_cons_self _ _) (congrArg Prod.fst hk)

theorem azItemsToUpsert_oid_mem (filtered : List AZOrder) (i : AZItemRow)
    (h : i ∈ azItemsToUpsert filtered) : i.order_id ∈ filtered.map (fun o => o.orderId) := by
  rcases List.mem_flatMap.mp h with ⟨o, ho, hi⟩
  rcases List.mem_map.mp hi with ⟨item, _, rfl⟩
  exact List.mem_map.mpr ⟨o, ho, rfl⟩

/-- Item authority for one kept amazon order: after the delete-then-upsert
phase, the (order id, item id) keys stored for that order are exactly the
keys of the batch rows for that order, whatever was stored before. -/
theorem amazon_item_authority (store : List AZItemRow) (orders : List AZOrder) (oid : String)
    (hmem : oid ∈ (filteredOrders orders).map (fun o => o.orderId)) (k : Option String) :
    (∃ r ∈ syncAmazonItems store orders, r.order_id = oid ∧ r.amazon_item_id = k) ↔
      ∃ i ∈ azItemsToUpsert (filteredOrders orders),
        i.order_id = oid ∧ i.amazon_item_id = k := by
  simp only [syncAmazonItems]
  have hids : (filteredOrders orders).map (fun o => o.orderId) ≠ [] := by
    intro hnil; rw [hnil] at hmem; exact List.not_mem_nil oid hmem
  rw [if_neg hids]
  set store1 := store.filter
    (fun r => r.order_id ∉ (filteredOrders orders).map (fun o => o.orderId)) with hstore1
  have hstore1_no : ∀ r ∈ store1, r.order_id ≠ oid := by
    intro r hr
    rcases List.mem_filter.mp hr with ⟨_, hcond⟩
    simp only [decide_eq_true_eq] at hcond
    intro heq; rw [heq] at hcond; exact hcond hmem
  by_cases hitems : azItemsToUpsert (filteredOrders orders) = []
  · rw [if_pos hitems]
    constructor
    · rintro ⟨r, hr, hoid, _⟩
      exact absurd hoid (hstore1_no r hr)
    · rintro ⟨i, hi, _⟩
      rw [hitems] at hi
      exact absurd hi (List.not_mem_nil i)
  · rw [if_neg hitems]
    constructor
    · rintro ⟨r, hr, hoid, hiid⟩
      have hk : ∃ x ∈ azItemKeyedUpsert store1 (azItemsToUpsert (filteredOrders orders)),
          azItemKey x = (oid, k) := ⟨r, hr, by rw [azItemKey, hoid, hiid]⟩
      rcases (key_mem_azItemKeyedUpsert _ _ _).mp hk with ⟨i, hi, hik⟩ | ⟨x, hx, hxk⟩
      · exact ⟨i, hi, congrArg Prod.fst hik, congrArg Prod.snd hik⟩
      · exact absurd (congrArg Prod.fst hxk) (hstore1_no x hx)
    · rintro ⟨i, hi, hioid, hiid⟩
      have := (key_mem_azItemKeyedUpsert store1 (azItemsToUpsert (filteredOrders orders))
        (oid, k)).mpr (Or.inl ⟨i, hi, by rw [azItemKey, hioid, hiid]⟩)
      rcases this with ⟨r, hr, hrk⟩
      exact ⟨r, hr, congrArg Prod.fst hrk, congrArg Prod.snd hrk⟩

/-- Items of orders not touched by the amazon run are preserved exactly. -/
theorem amazon_untouched_preserved (store : List AZItemRow) (orders : List AZOrder)
    (r : AZItemRow) (h : r.order_id ∉ (filteredOrders orders).map (fun o => o.orderId)) :
    r ∈ syncAmazonItems store orders ↔ r ∈ store := by
  simp only [syncAmazonItems]
  have hstore1 : r ∈ (if (filteredOrders orders).map (fun o => o.orderId) = [] then store
      else store.filter
        (fun x => x.order_id ∉ (filteredOrders orders).map (fun o => o.orderId))) ↔
      r ∈ store := by
    by_cases hids : (filteredOrders orders).map (fun o => o.orderId) = []
    · rw [if_pos hids]
    · rw [if_neg hids]
      constructor
      · intro hm; exact (List.mem_filter.mp hm).1
      · intro hm
        exact List.mem_filter.mpr ⟨hm, by simpa using h⟩
  by_cases hitems : azItemsToUpsert (filteredOrders orders) = []
  · rw [if_pos hitems]; exact hstore1
  · rw [if_neg hitems]
    rw [mem_azItemKeyedUpsert_of_ne _ _ r ?_]
    · exact hstore1
    · intro row hrow heq
      have := azItemsToUpsert_oid_mem _ row hrow
      rw [heq] at this
      exact h this

end Amazon

namespace FlipkartSync

/-- One entry of FlipkartShipment.orderItems (the fields the sync reads). -/
structure FKOrderItem where
  orderItemId : Option String
  orderId : Option String
  orderDate : Option String
  paymentType : Option String
  status : Option String
  quantity : Option ℚ
  sku : Option String
  totalPrice : NumInput
deriving DecidableEq

/-- The fields of a FlipkartShipment used by the sync. -/
structure FKShipment where
  shipmentId : Option String
  updatedAt : Option String
  orderItems : List FKOrderItem
deriving DecidableEq

/-- Flipkart parseNumber: null/undefined or the empty string give null,
NaN gives null, otherwise the parsed value rounded to two decimals.
No character stripping. -/
def parseNumber : NumInput → Option ℚ
  | NumInput.null => none
  | NumInput.str s => if s = "" then none else (jsNumber s).map toFixed2
  | NumInput.num q => some (toFixed2 (jsNumOfNum q))

/-- The comparison key of the dedup rule: parseDate(updatedAt) with null
replaced by the empty string (which is the minimum of the lexicographic
string order used by the JavaScript comparison).  pd models the JavaScript
Date parse composed with toISOString. -/
def updStr (pd : String → Option String) (s : FKShipment) : String :=
  ((truthyStr s.updatedAt).bind pd).getD ""

/-- The keyed branch of the shipmentMap dedup: a first occurrence of the key
is inserted; a later occurrence replaces the stored one exactly when its
parsed updatedAt is greater than or equal to the stored one’s. -/
def insertKeyed (pd : String → Option String) (m : List (String × FKShipment))
    (sid : String) (s : FKShipment) : List (String × FKShipment) :=
  match (m.find? (fun e => e.1 = sid)).map Prod.snd with
  | none => m ++ [(sid, s)]
  | some existing =>
    if updStr pd existing ≤ updStr pd s then
      m.map (fun e => if e.1 = sid then (sid, s) else e)
    else m

/-- One step of the shipmentMap dedup: a shipment without a (truthy)
shipmentId is skipped, otherwise it is inserted under its id. -/
def insertShipment (pd : String → Option String) (m : List (String × FKShipment))
    (s : FKShipment) : List (String × FKShipment) :=
  match truthyStr s.shipmentId with
  | none => m
  | some sid => insertKeyed pd m sid s

/-- The shipmentMap after folding every page of every filter, in encounter
order (the code iterates the two dispatch filters and, within each, the
pages in fetch order). -/
def collectShipmentMap (pd : String → Option String)
    (pages : List (List FKShipment)) : List (String × FKShipment) :=
  pages.foldl (fun m ps => ps.foldl (insertShipment pd) m) []

/-- Lookup in the shipmentMap model. -/
def mapLookup (m : List (String × FKShipment)) (sid : String) : Option FKShipment :=
  (m.find? (fun e => e.1 = sid)).map Prod.snd

/-- Specification-side selector (from the spec text): among the batch
entries carrying a given natural key, keep the ones whose parsed updatedAt
timestamp is maximal, and of those the last encountered. -/
def specLatestWins (pd : String → Option String) (cands : List FKShipment) : Option FKShipment :=
  (cands.filter (fun c => cands.all (fun d => updStr pd d ≤ updStr pd c))).getLast?

/-- The encounter sequence restricted to one shipment id. -/
def candidatesFor (pages : List (List FKShipment)) (sid : String) : List FKShipment :=
  (pages.flatten).filter (fun s => truthyStr s.shipmentId = some sid)

/-- A row of sales.flipkart_orders. -/
structure FKOrderRow where
  shipment_id : String
  order_id : String
  payment_type : Option String
  last_accessed_at : String
deriving DecidableEq

/-- ordersToUpsert of the flipkart sync: shipments lacking a truthy
shipmentId, an orderItems head, or a truthy orderId on that first item are
silently dropped (map to null, then filter(Boolean)). -/
def ordersToUpsert (nowIso : String) (shipments : List FKShipment) : List FKOrderRow :=
  shipments.filterMap (fun sh =>
    match truthyStr sh.shipmentId, sh.orderItems.head? with
    | some sid, some firstItem =>
      match truthyStr firstItem.orderId with
      | some oid => some
        { shipment_id := sid
          order_id := oid
          payment_type := firstItem.paymentType
          last_accessed_at := nowIso }
      | none => none
    | _, _ => none)

/-- A row of sales.flipkart_items. -/
structure FKItemRow where
  shipment_id : String
  order_item_id : String
  order_date : Option String
  status : Option String
  quantity : Option ℚ
  sku : Option String
  total_price : Option ℚ
deriving DecidableEq

/-- Natural key of sales.flipkart_items (onConflict shipment_id,order_item_id). -/
def fkItemKey (r : FKItemRow) : String × String :=
  (r.shipment_id, r.order_item_id)

/-- itemsToUpsert of the flipkart sync: for each shipment with a truthy
shipmentId, one row per order item with a truthy orderItemId. -/
def itemsToUpsert (pd : String → Option String) (shipments : List FKShipment) : List FKItemRow :=
  shipments.flatMap (fun sh =>
    match truthyStr sh.shipmentId with
    | none => []
    | some sid =>
      sh.orderItems.filterMap (fun it =>
        match truthyStr it.orderItemId with
        | none => none
        | some iid => some
          { shipment_id := sid
            order_item_id := iid
            order_date := (truthyStr it.orderDate).bind pd
            status := it.status
            quantity := it.quantity
            sku := it.sku
            total_price := parseNumber it.totalPrice }))

/-- The item write phase of the flipkart sync: delete every stored item of
the shipments present in ordersToUpsert, then upsert the batch item rows
(which are built from every shipment with a truthy shipmentId, including
shipments that did not make it into ordersToUpsert). -/
def syncFlipkartItems (pd : String → Option String) (nowIso : String)
    (store : List FKItemRow) (shipments : List FKShipment) : List FKItemRow :=
  let shipmentIds := (ordersToUpsert nowIso shipments).map (fun r => r.shipment_id)
  let store1 := if shipmentIds = [] then store
    else store.filter (fun r => r.shipment_id ∉ shipmentIds)
  let items := itemsToUpsert pd shipments
  if items = [] then store1 else upsertRows fkItemKey store1 items

theorem ordersToUpsert_sid_touched (nowIso : String) (shipments : List FKShipment)
    (row : FKOrderRow) (h : row ∈ ordersToUpsert nowIso shipments) :
    row.shipment_id ∈ shipments.filterMap (fun sh => truthyStr sh.shipmentId) := by
  rcases List.mem_filterMap.mp h with ⟨sh, hsh, hmk⟩
  refine List.mem_filterMap.mpr ⟨sh, hsh, ?_⟩
  rcases hsid : truthyStr sh.shipmentId with _ | sid
  · simp [hsid] at hmk
  · simp only [hsid] at hmk
    rcases hhd : sh.orderItems.head? with _ | firstItem
    · simp [hhd] at hmk
    · simp only [hhd] at hmk
      rcases hoid : truthyStr firstItem.orderId with _ | oid
      · simp [hoid] at hmk
      · simp only [hoid, Option.some.injEq] at hmk
        rw [← hmk]

theorem itemsToUpsert_sid_touched (pd : String → Option String) (shipments : List FKShipment)
    (i : FKItemRow) (h : i ∈ itemsToUpsert pd shipments) :
    i.shipment_id ∈ shipments.filterMap (fun sh => truthyStr sh.shipmentId) := by
  rcases List.mem_flatMap.mp h with ⟨sh, hsh, hi⟩
  rcases hsid : truthyStr sh.shipmentId with _ | sid
  · simp [hsid] at hi
  · simp only [hsid] at hi
    rcases List.mem_filterMap.mp hi with ⟨it, _, hmk⟩
    rcases hiid : truthyStr it.orderItemId with _ | iid
    · simp [hiid] at hmk
    · simp only [hiid, Option.some.injEq] at hmk
      rw [← hmk]
      exact List.mem_filterMap.mpr ⟨sh, hsh, hsid⟩

theorem itemsToUpsert_sid_of_unique (pd : String → Option String) (shipments : List FKShipment)
    (S : FKShipment) (sid : String)
    (huniq : ∀ sh ∈ shipments, truthyStr sh.shipmentId = some sid → sh = S)
    (i : FKItemRow) (hi : i ∈ itemsToUpsert pd shipments) (hisid : i.shipment_id = sid) :
    ∃ it ∈ S.orderItems, truthyStr it.orderItemId = some i.order_item_id := by
  rcases List.mem_flatMap.mp hi with ⟨sh, hsh, hrow⟩
  rcases hsid : truthyStr sh.shipmentId with _ | sid2
  · simp [hsid] at hrow
  · simp only [hsid] at hrow
    rcases List.mem_filterMap.mp hrow with ⟨it, hit, hmk⟩
    rcases hiid : truthyStr it.orderItemId with _ | iid
    · simp [hiid] at hmk
    · simp only [hiid, Option.some.injEq] at hmk
      have hsid2 : sid2 = sid := by rw [← hisid, ← hmk]
      rw [hsid2] at hsid
      have hShS := huniq sh hsh hsid
      rw [← hShS]
      refine ⟨it, hit, ?_⟩
      rw [hiid, ← hmk]

/-- Item authority for one flipkart shipment that made it into
ordersToUpsert (truthy shipment id, a first order item with a truthy order
id) and whose id identifies it uniquely in the batch: after the
delete-then-upsert phase the stored keys for that shipment are exactly the
batch item keys for it. -/
theorem flipkart_item_authority (pd : String → Option String) (nowIso : String)
    (store : List FKItemRow) (shipments : List FKShipment) (S : FKShipment) (sid : String)
    (hS : S ∈ shipments) (hsid : truthyStr S.shipmentId = some sid)
    (huniq : ∀ sh ∈ shipments, truthyStr sh.shipmentId = some sid → sh = S)
    (firstItem : FKOrderItem) (hhead : S.orderItems.head? = some firstItem)
    (oid : String) (hoid : truthyStr firstItem.orderId = some oid) (k : String) :
    (∃ r ∈ syncFlipkartItems pd nowIso store shipments,
        r.shipment_id = sid ∧ r.order_item_id = k) ↔
      ∃ it ∈ S.orderItems, truthyStr it.orderItemId = some k := by
  have hrow : (⟨sid, oid, firstItem.paymentType, nowIso⟩ : FKOrderRow) ∈
      ordersToUpsert nowIso shipments := by
    refine List.mem_filterMap.mpr ⟨S, hS, ?_⟩
    simp only [hsid, hhead, hoid]
  have hsidmem : sid ∈ (ordersToUpsert nowIso shipments).map (fun r => r.shipment_id) :=
    List.mem_map.mpr ⟨_, hrow, rfl⟩
  have hids : (ordersToUpsert nowIso shipments).map (fun r => r.shipment_id) ≠ [] := by
    intro hnil; rw [hnil] at hsidmem; exact List.not_mem_nil sid hsidmem
  simp only [syncFlipkartItems]
  rw [if_neg hids]
  set store1 := store.filter
    (fun r => r.shipment_id ∉ (ordersToUpsert nowIso shipments).map (fun r => r.shipment_id))
    with hstore1
  have hstore1_no : ∀ r ∈ store1, r.shipment_id ≠ sid := by
    intro r hr heq
    rcases List.mem_filter.mp hr with ⟨_, hcond⟩
    simp only [decide_eq_true_eq] at hcond
    rw [heq] at hcond
    exact hcond hsidmem
  constructor
  · intro hex
    by_cases hitems : itemsToUpsert pd shipments = []
    · rw [if_pos hitems] at hex
      rcases hex with ⟨r, hr, hrs, _⟩
      exact absurd hrs (hstore1_no r hr)
    · rw [if_neg hitems] at hex
      rcases hex with ⟨r, hr, hrs, hrk⟩
      have : ∃ x ∈ upsertRows fkItemKey store1 (itemsToUpsert pd shipments),
          fkItemKey x = (sid, k) := ⟨r, hr, by rw [fkItemKey, hrs, hrk]⟩
      rcases (key_mem_upsertRows _ _ _ _).mp this with ⟨i, hi, hik⟩ | ⟨x, hx, hxk⟩
      · have hisid : i.shipment_id = sid := congrArg Prod.fst hik
        have hiid : i.order_item_id = k := congrArg Prod.snd hik
        rcases itemsToUpsert_sid_of_unique pd shipments S sid huniq i hi hisid with ⟨it, hit, hk⟩
        exact ⟨it, hit, by rw [hk, hiid]⟩
      · exact absurd (congrArg Prod.fst hxk) (hstore1_no x hx)
  · rintro ⟨it, hit, hk⟩
    have hirow : (⟨sid, k, (truthyStr it.orderDate).bind pd, it.status, it.quantity, it.sku,
        parseNumber it.totalPrice⟩ : FKItemRow) ∈ itemsToUpsert pd shipments := by
      refine List.mem_flatMap.mpr ⟨S, hS, ?_⟩
      rw [hsid]
      refine List.mem_filterMap.mpr ⟨it, hit, ?_⟩
      simp only [hk]
    have hitems : itemsToUpsert pd shipments ≠ [] := by
      intro hnil; rw [hnil] at hirow; exact List.not_mem_nil _ hirow
    rw [if_neg hitems]
    have := (key_mem_upsertRows fkItemKey store1 (itemsToUpsert pd shipments) (sid, k)).mpr
      (Or.inl ⟨_, hirow, rfl⟩)
    rcases this with ⟨r, hr, hrk⟩
    exact ⟨r, hr, congrArg Prod.fst hrk, congrArg Prod.snd hrk⟩

/-- Items of shipments not touched by the flipkart run are preserved exactly. -/
theorem flipkart_untouched_preserved (pd : String → Option String) (nowIso : String)
    (store : List FKItemRow) (shipments : List FKShipment) (r : FKItemRow)
    (h : r.shipment_id ∉ shipments.filterMap (fun sh => truthyStr sh.shipmentId)) :
    r ∈ syncFlipkartItems pd nowIso store shipments ↔ r ∈ store := by
  simp only [syncFlipkartItems]
  have hstore1 : r ∈ (if (ordersToUpsert nowIso shipments).map (fun x => x.shipment_id) = []
      then store
      else store.filter (fun x =>
        x.shipment_id ∉ (ordersToUpsert nowIso shipments).map (fun x => x.shipment_id))) ↔
      r ∈ store := by
    by_cases hids : (ordersToUpsert nowIso shipments).map (fun x => x.shipment_id) = []
    · rw [if_pos hids]
    · rw [if_neg hids]
      constructor
      · intro hm; exact (List.mem_filter.mp hm).1
      · intro hm
        refine List.mem_filter.mpr ⟨hm, ?_⟩
        simp only [decide_eq_true_eq]
        intro hmem
        rcases List.mem_map.mp hmem with ⟨row, hrow, hre⟩
        have := ordersToUpsert_sid_touched nowIso shipments row hrow
        rw [hre] at this
        exact h this
  by_cases hitems : itemsToUpsert pd shipments = []
  · rw [if_pos hitems]; exact hstore1
  · rw [if_neg hitems]
    rw [mem_upsertRows_of_ne_key fkItemKey _ _ r ?_]
    · exact hstore1
    · intro row hrow hk
      have := itemsToUpsert_sid_touched pd shipments row hrow
      rw [show row.shipment_id = r.shipment_id from congrArg Prod.fst hk] at this
      exact h this

/-- The dedup decision applied to one candidate against the current winner:
first occurrence is kept, a later one replaces exactly when its key is
greater than or equal. -/
def dedupStep (pd : String → Option String) (acc : Option FKShipment)
    (s : FKShipment) : Option FKShipment :=
  match acc with
  | none => some s
  | some cur => if updStr pd cur ≤ updStr pd s then some s else some cur

theorem mapLookup_insertKeyed (pd : String → Option String)
    (m : List (String × FKShipment)) (sid2 : String) (s : FKShipment) (sid : String) :
    mapLookup (insertKeyed pd m sid2 s) sid =
      if sid2 = sid then dedupStep pd (mapLookup m sid) s else mapLookup m sid := by
  unfold insertKeyed
  rcases hfind : (m.find? (fun e => e.1 = sid2)).map Prod.snd with _ | existing
  · try rw [hfind]
    have hf : m.find? (fun e => decide (e.1 = sid2)) = none := by
      rcases hff : m.find? (fun e => decide (e.1 = sid2)) with _ | e
      · exact hff
      · rw [hff] at hfind; simp at hfind
    by_cases heq : sid2 = sid
    · subst heq
      rw [if_pos rfl]
      have hm : mapLookup m sid2 = none := hfind
      rw [hm]
      show (List.find? (fun e => decide (e.1 = sid2)) (m ++ [(sid2, s)])).map Prod.snd = _
      rw [List.find?_append, hf, Option.none_or, List.find?_cons_of_pos _ (by simp)]
      rfl
    · rw [if_neg heq]
      show (List.find? (fun e => decide (e.1 = sid)) (m ++ [(sid2, s)])).map Prod.snd =
        (m.find? (fun e => decide (e.1 = sid))).map Prod.snd
      rw [List.find?_append]
      have hsg : List.find? (fun e => decide (e.1 = sid)) [(sid2, s)] = none := by
        rw [List.find?_cons_of_neg _ (by simp [heq])]
        rfl
      rw [hsg, Option.or_none]
  · try rw [hfind]
    dsimp only
    have hfind2 : (m.find? (fun e => decide (e.1 = sid2))).map Prod.snd = some existing := hfind
    by_cases hle : updStr pd existing ≤ updStr pd s
    · rw [if_pos hle]
      by_cases heq : sid2 = sid
      · subst heq
        rw [if_pos rfl]
        have hm : mapLookup m sid2 = some existing := hfind
        rw [hm]
        show (List.find? (fun e => decide (e.1 = sid2))
          (m.map (fun e => if e.1 = sid2 then (sid2, s) else e))).map Prod.snd = _
        rw [List.find?_map]
        have hpf : ((fun e : String × FKShipment => decide (e.1 = sid2)) ∘
            (fun e => if e.1 = sid2 then (sid2, s) else e)) =
            (fun e : String × FKShipment => decide (e.1 = sid2)) := by
          funext e
          by_cases he : e.1 = sid2 <;> simp [he]
        rw [hpf]
        rcases hff : m.find? (fun e => decide (e.1 = sid2)) with _ | e0
        · rw [hff] at hfind2; simp at hfind2
        · have he0 : e0.1 = sid2 := by
            have := List.find?_some hff
            simpa using this
          try rw [hff]
          have hifr : (if e0.1 = sid2 then (sid2, s) else e0) = (sid2, s) := if_pos he0
          simp only [Option.map_some', hifr, dedupStep]
          rw [if_pos hle]
      · rw [if_neg heq]
        show (List.find? (fun e => decide (e.1 = sid))
          (m.map (fun e => if e.1 = sid2 then (sid2, s) else e))).map Prod.snd =
          (m.find? (fun e => decide (e.1 = sid))).map Prod.snd
        rw [List.find?_map]
        have hpf : ((fun e : String × FKShipment => decide (e.1 = sid)) ∘
            (fun e => if e.1 = sid2 then (sid2, s) else e)) =
            (fun e : String × FKShipment => decide (e.1 = sid)) := by
          funext e
          by_cases he : e.1 = sid2 <;> simp [he, heq]
        rw [hpf]
        rcases hff : m.find? (fun e => decide (e.1 = sid)) with _ | e0
        · try rw [hff]
          rfl
        · have he0 : e0.1 = sid := by
            have := List.find?_some hff
            simpa using this
          have hne : ¬(e0.1 = sid2) := by
            rw [he0]; exact fun hs => heq hs.symm
          try rw [hff]
          simp only [Option.map_some']
          rw [if_neg hne]
    · rw [if_neg hle]
      by_cases heq : sid2 = sid
      · subst heq
        rw [if_pos rfl]
        have hm : mapLookup m sid2 = some existing := hfind
        rw [hm]
        simp [dedupStep, hle]
      · rw [if_neg heq]

theorem mapLookup_insertShipment (pd : String → Option String)
    (m : List (String × FKShipment)) (s : FKShipment) (sid : String) :
    mapLookup (insertShipment pd m s) sid =
      if truthyStr s.shipmentId = some sid then dedupStep pd (mapLookup m sid) s
      else mapLookup m sid := by
  unfold insertShipment
  rcases hsid : truthyStr s.shipmentId with _ | sid2
  · rw [if_neg (by simp)]
  · dsimp only
    rw [mapLookup_insertKeyed]
    by_cases heq : sid2 = sid
    · rw [if_pos heq, if_pos (by rw [heq])]
    · rw [if_neg heq, if_neg (by simp [heq])]

theorem mapLookup_foldl_insert (pd : String → Option String) (l : List FKShipment)
    (m : List (String × FKShipment)) (sid : String) :
    mapLookup (l.foldl (insertShipment pd) m) sid =
      (l.filter (fun s => truthyStr s.shipmentId = some sid)).foldl (dedupStep pd)
        (mapLookup m sid) := by
  induction l generalizing m with
  | nil => rfl
  | cons s rest ih =>
    show mapLookup (rest.foldl (insertShipment pd) (insertShipment pd m s)) sid = _
    rw [ih, mapLookup_insertShipment]
    by_cases hs : truthyStr s.shipmentId = some sid
    · rw [if_pos hs]
      have : List.filter (fun x => decide (truthyStr x.shipmentId = some sid)) (s :: rest) =
          s :: List.filter (fun x => decide (truthyStr x.shipmentId = some sid)) rest := by
        rw [List.filter_cons_of_pos (by simp [hs])]
      rw [this]
      rfl
    · rw [if_neg hs]
      have : List.filter (fun x => decide (truthyStr x.shipmentId = some sid)) (s :: rest) =
          List.filter (fun x => decide (truthyStr x.shipmentId = some sid)) rest := by
        rw [List.filter_cons_of_neg (by simp [hs])]
      rw [this]

theorem dedupFold_eq_none_iff (pd : String → Option String) (l : List FKShipment) :
    l.foldl (dedupStep pd) none = none ↔ l = [] := by
  induction l using List.reverseRecOn with
  | nil => simp
  | append_singleton l x _ =>
    rw [List.foldl_append, List.foldl_cons, List.foldl_nil]
    constructor
    · intro h
      exfalso
      rcases hacc : l.foldl (dedupStep pd) none with _ | c <;> rw [hacc] at h
      · simp [dedupStep] at h
      · simp only [dedupStep] at h
        by_cases hle : updStr pd c ≤ updStr pd x
        · rw [if_pos hle] at h; exact Option.noConfusion h
        · rw [if_neg hle] at h; exact Option.noConfusion h
    · intro h
      simp at h

theorem dedupFold_mem_and_max (pd : String → Option String) (l : List FKShipment)
    (c : FKShipment) (h : l.foldl (dedupStep pd) none = some c) :
    c ∈ l ∧ ∀ d ∈ l, updStr pd d ≤ updStr pd c := by
  induction l using List.reverseRecOn generalizing c with
  | nil => exact absurd h (by simp)
  | append_singleton l x ih =>
    rw [List.foldl_append, List.foldl_cons, List.foldl_nil] at h
    rcases hacc : l.foldl (dedupStep pd) none with _ | b <;> rw [hacc] at h
    · have hl : l = [] := (dedupFold_eq_none_iff pd l).mp hacc
      subst hl
      simp only [dedupStep] at h
      rcases Option.some.inj h with rfl
      refine ⟨by simp, ?_⟩
      intro d hd
      rcases List.mem_singleton.mp (by simpa using hd) with rfl
      exact le_refl _
    · rcases ih b hacc with ⟨hmem, hmax⟩
      simp only [dedupStep] at h
      by_cases hle : updStr pd b ≤ updStr pd x
      · rw [if_pos hle] at h
        rcases Option.some.inj h with rfl
        refine ⟨by simp, ?_⟩
        intro d hd
        rcases List.mem_append.mp hd with hd | hd
        · exact le_trans (hmax d hd) hle
        · rcases List.mem_singleton.mp hd with rfl
          exact le_refl _
      · rw [if_neg hle] at h
        rcases Option.some.inj h with rfl
        refine ⟨List.mem_append.mpr (Or.inl hmem), ?_⟩
        intro d hd
        rcases List.mem_append.mp hd with hd | hd
        · exact hmax d hd
        · rcases List.mem_singleton.mp hd with rfl
          exact le_of_not_le hle

theorem dedupFold_eq_specLatestWins (pd : String → Option String) (l : List FKShipment) :
    l.foldl (dedupStep pd) none = specLatestWins pd l := by
  induction l using List.reverseRecOn with
  | nil => rfl
  | append_singleton l x ih =>
    rw [List.foldl_append, List.foldl_cons, List.foldl_nil]
    rcases hacc : l.foldl (dedupStep pd) none with _ | c
    · have hl : l = [] := (dedupFold_eq_none_iff pd l).mp hacc
      subst hl
      simp [dedupStep, specLatestWins]
    · rcases dedupFold_mem_and_max pd l c hacc with ⟨hmem, hmax⟩
      simp only [dedupStep]
      by_cases hle : updStr pd c ≤ updStr pd x
      · rw [if_pos hle]
        unfold specLatestWins
        rw [List.filter_append]
        have hx : List.filter
            (fun y => (l ++ [x]).all (fun d => updStr pd d ≤ updStr pd y)) [x] = [x] := by
          rw [List.filter_cons_of_pos, List.filter_nil]
          rw [List.all_eq_true]
          intro d hd
          rcases List.mem_append.mp hd with hd | hd
          · exact decide_eq_true (le_trans (hmax d hd) hle)
          · rcases List.mem_singleton.mp hd with rfl
            exact decide_eq_true (le_refl _)
        rw [hx, List.getLast?_concat]
      · rw [if_neg hle]
        have hxlt : updStr pd x < updStr pd c := lt_of_not_le hle
        unfold specLatestWins
        rw [List.filter_append]
        have hx : List.filter
            (fun y => (l ++ [x]).all (fun d => updStr pd d ≤ updStr pd y)) [x] = [] := by
          rw [List.filter_cons_of_neg, List.filter_nil]
          rw [List.all_eq_true]
          intro hall
          have := of_decide_eq_true (hall c (List.mem_append.mpr (Or.inl hmem)))
          exact hle this
        rw [hx, List.append_nil]
        have hsame : List.filter
            (fun y => (l ++ [x]).all (fun d => updStr pd d ≤ updStr pd y)) l =
            List.filter (fun y => l.all (fun d => updStr pd d ≤ updStr pd y)) l := by
          refine List.filter_congr ?_
          intro y hy
          rcases hcase : l.all (fun d => decide (updStr pd d ≤ updStr pd y)) with _ | _
          · have hnot : ¬ (l ++ [x]).all (fun d => decide (updStr pd d ≤ updStr pd y)) = true := by
              intro hall
              simp only [List.all_append, Bool.and_eq_true] at hall
              rcases hall with ⟨h1, _⟩
              rw [hcase] at h1
              exact Bool.noConfusion h1
            rw [Bool.eq_false_iff.mpr hnot]
          · have hyc : updStr pd c ≤ updStr pd y := by
              have := List.all_eq_true.mp hcase c hmem
              exact of_decide_eq_true this
            have hpos : (l ++ [x]).all (fun d => decide (updStr pd d ≤ updStr pd y)) = true := by
              rw [List.all_append, Bool.and_eq_true]
              refine ⟨hcase, ?_⟩
              simp only [List.all_cons, List.all_nil, Bool.and_true]
              exact decide_eq_true (le_trans (le_of_lt hxlt) hyc)
            rw [hpos]
        rw [hsame]
        show some c = specLatestWins pd l
        rw [← ih, hacc]

/-- C4: the shipmentMap dedup of the flipkart sync agrees with the
specification-side selector: for every shipment id, the map holds the
candidate with the greatest parsed updatedAt, ties and absent timestamps
resolved in favour of the last-encountered candidate (the record written per
natural key is the one with the latest parsed updatedAt; on equal or absent
timestamps the later-encountered record wins). -/
theorem collectShipmentMap_latest_wins (pd : String → Option String)
    (pages : List (List FKShipment)) (sid : String) :
    mapLookup (collectShipmentMap pd pages) sid =
      specLatestWins pd (candidatesFor pages sid) := by
  unfold collectShipmentMap candidatesFor
  rw [← List.foldl_flatten, mapLookup_foldl_insert]
  show (List.filter _ pages.flatten).foldl (dedupStep pd) none = _
  rw [dedupFold_eq_specLatestWins]

end FlipkartSync

namespace FlipkartCancel

/-- A shipment of the cancellation feed (only its id is read). -/
structure CXShipment where
  shipmentId : Option String
deriving DecidableEq

/-- One page of the flipkart filter API as read by the cancellation walk. -/
structure CXPage where
  hasMore : Bool
  nextPageUrl : Option String
  shipments : List CXShipment
deriving DecidableEq

/-- The failures the cancellation walk can throw. -/
inductive PageErr : Type
  | missingToken : PageErr
  | paginationLoop : PageErr
deriving DecidableEq

/-- shipmentIds.add over one page (a JS Set: keeps first-insertion order,
ignores falsy ids and ids already present). -/
def addIds (acc : List String) (shipments : List CXShipment) : List String :=
  shipments.foldl
    (fun a sh =>
      match truthyStr sh.shipmentId with
      | none => a
      | some i => if i ∈ a then a else a ++ [i])
    acc

/-- collectCancelledShipmentIds: walk the pages from the given one.  Stops
with ok when hasMore is falsy or nextPageUrl is absent; extracts the
continuation token from nextPageUrl (throwing when absent); throws
paginationLoop when the token was already seen; otherwise follows.  extract
models getNextTokenFromUrl, fetchNext the next-page fetch keyed by the
extracted token; the fuel argument makes the JavaScript while(true) loop a
total function, none meaning the loop is still running. -/
def collectCancelled (extract : String → Option String) (fetchNext : String → CXPage) :
    Nat → CXPage → List String → List String → Option (Except PageErr (List String))
  | 0, _, _, _ => none
  | fuel+1, page, seen, acc =>
    if page.hasMore then
      match truthyStr page.nextPageUrl with
      | none => some (Except.ok (addIds acc page.shipments))
      | some url =>
        match extract url with
        | none => some (Except.error PageErr.missingToken)
        | some t =>
          if t ∈ seen then some (Except.error PageErr.paginationLoop)
          else collectCancelled extract fetchNext fuel (fetchNext t) (t :: seen)
            (addIds acc page.shipments)
    else some (Except.ok (addIds acc page.shipments))

/-- The page chain the server serves: from page p, consuming the listed
continuation tokens in order, the walk reaches page q. -/
inductive Follows (extract : String → Option String) (fetchNext : String → CXPage) :
    CXPage → List String → CXPage → Prop
  | refl (p : CXPage) : Follows extract fetchNext p [] p
  | step (p : CXPage) (u t : String) (toks : List String) (q : CXPage) :
      p.hasMore = true → truthyStr p.nextPageUrl = some u → extract u = some t →
      Follows extract fetchNext (fetchNext t) toks q →
      Follows extract fetchNext p (t :: toks) q

theorem collectCancelled_succ (extract : String → Option String) (fetchNext : String → CXPage)
    (fuel : Nat) (page : CXPage) (seen acc : List String) :
    collectCancelled extract fetchNext (fuel + 1) page seen acc =
      if page.hasMore then
        match truthyStr page.nextPageUrl with
        | none => some (Except.ok (addIds acc page.shipments))
        | some url =>
          match extract url with
          | none => some (Except.error PageErr.missingToken)
          | some t =>
            if t ∈ seen then some (Except.error PageErr.paginationLoop)
            else collectCancelled extract fetchNext fuel (fetchNext t) (t :: seen)
              (addIds acc page.shipments)
      else some (Except.ok (addIds acc page.shipments)) := rfl

/-- C2 (amended): fail-fast on a repeated continuation token in the flipkart
cancelled-shipments connector, the one connector with loop detection: if the
chain from page p consumes pairwise-distinct tokens (none of them already
seen) and reaches a page whose next token repeats one of them (or one
already seen), the walk terminates with the paginationLoop error as soon as
it gets there, instead of looping forever. -/
theorem collectCancelled_failfast (extract : String → Option String)
    (fetchNext : String → CXPage) (p : CXPage) (toks : List String) (q : CXPage)
    (hfol : Follows extract fetchNext p toks q) (u t : String)
    (hq1 : q.hasMore = true) (hq2 : truthyStr q.nextPageUrl = some u)
    (hq3 : extract u = some t) :
    ∀ seen acc fuel, toks.Nodup → (∀ x ∈ toks, x ∉ seen) → (t ∈ toks ∨ t ∈ seen) →
      toks.length < fuel →
      collectCancelled extract fetchNext fuel p seen acc =
        some (Except.error PageErr.paginationLoop) := by
  induction hfol with
  | refl p =>
    intro seen acc fuel _ _ hmem hfuel
    have ht : t ∈ seen := by
      rcases hmem with h | h
      · exact absurd h (List.not_mem_nil t)
      · exact h
    rcases fuel with _ | fuel
    · exact absurd hfuel (by simp)
    · rw [collectCancelled_succ, if_pos hq1, hq2]
      dsimp only
      rw [hq3]
      dsimp only
      rw [if_pos ht]
  | step p u2 t2 toks q hp1 hp2 hp3 _ ih =>
    intro seen acc fuel hnodup hdisj hmem hfuel
    rcases fuel with _ | fuel
    · exact absurd hfuel (by simp)
    · have ht2 : t2 ∉ seen := hdisj t2 (List.mem_cons_self _ _)
      rw [collectCancelled_succ, if_pos hp1, hp2]
      dsimp only
      rw [hp3]
      dsimp only
      rw [if_neg ht2]
      refine ih hq1 hq2 (t2 :: seen) (addIds acc p.shipments) fuel
        (List.Nodup.of_cons hnodup) ?_ ?_ ?_
      · intro x hx hmem2
        rcases List.mem_cons.mp hmem2 with rfl | hxs
        · exact (List.nodup_cons.mp hnodup).1 hx
        · exact hdisj x (List.mem_cons_of_mem _ hx) hxs
      · rcases hmem with hm | hm
        · rcases List.mem_cons.mp hm with rfl | hm
          · exact Or.inr (List.mem_cons_self _ _)
          · exact Or.inl hm
        · exact Or.inr (List.mem_cons_of_mem _ hm)
      · exact Nat.lt_of_succ_lt_succ (by simpa using hfuel)

/-- The success payload of the cancelled-shipments purge. -/
structure PurgeResult where
  cancelled_shipments_found : Nat
  deleted_orders : Nat
  deleted_items : Nat
deriving DecidableEq

/-- The purge phase of the cancelled-shipments handler: with an empty feed
it reports zeros and deletes nothing; otherwise it counts then deletes the
item rows of the cancelled shipments, then counts then deletes the order
rows, and reports the counts taken before each deletion. -/
def purgeCancelled (orders : List FlipkartSync.FKOrderRow)
    (items : List FlipkartSync.FKItemRow) (ids : List String) :
    List FlipkartSync.FKOrderRow × List FlipkartSync.FKItemRow × PurgeResult :=
  if ids = [] then (orders, items, ⟨0, 0, 0⟩)
  else
    let itemsCount := (items.filter (fun r => r.shipment_id ∈ ids)).length
    let items2 := items.filter (fun r => r.shipment_id ∉ ids)
    let ordersCount := (orders.filter (fun r => r.shipment_id ∈ ids)).length
    let orders2 := orders.filter (fun r => r.shipment_id ∉ ids)
    (orders2, items2, ⟨ids.length, ordersCount, itemsCount⟩)

end FlipkartCancel

namespace Shiprocket

/-- One page of the shiprocket orders API: data may be absent (pushed as the
empty list) and the next link comes from meta.pagination.links.next. -/
structure SRPage where
  data : Option (List SROrder)
  next : Option String
deriving DecidableEq

/-- The shiprocket pagination loop: follow the next link (after re-applying
the preserved query parameters, modelled by normalize) until it is absent,
concatenating every page's data in fetch order.  fetch models the HTTP GET
of one page by URL; the fuel argument makes the while loop a total function,
none meaning the loop is still running. -/
def srWalk (fetch : String → SRPage) (normalize : String → String) :
    Nat → String → List SROrder → Option (List SROrder)
  | 0, _, _ => none
  | fuel+1, url, acc =>
    let page := fetch (normalize url)
    let acc2 := acc ++ page.data.getD []
    match page.next with
    | none => some acc2
    | some nxt => srWalk fetch normalize fuel nxt acc2

/-- The finite page chain the server serves starting from a URL: the listed
pages are exactly the fetched ones, and the last one has no next link. -/
inductive SRServes (fetch : String → SRPage) (normalize : String → String) :
    String → List SRPage → Prop
  | last (u : String) : (fetch (normalize u)).next = none →
      SRServes fetch normalize u [fetch (normalize u)]
  | step (u v : String) (ps : List SRPage) : (fetch (normalize u)).next = some v →
      SRServes fetch normalize v ps →
      SRServes fetch normalize u (fetch (normalize u) :: ps)

/-- On a finite page chain the shiprocket walk terminates and returns the
accumulator followed by the concatenation of every page's records, in page
order. -/
theorem srWalk_concat (fetch : String → SRPage) (normalize : String → String)
    (u : String) (ps : List SRPage) (h : SRServes fetch normalize u ps) :
    ∀ fuel acc, ps.length ≤ fuel →
      srWalk fetch normalize fuel u acc =
        some (acc ++ (ps.map (fun p => p.data.getD [])).flatten) := by
  induction h with
  | last u hnone =>
    intro fuel acc hfuel
    rcases fuel with _ | fuel
    · exact absurd hfuel (by simp)
    · show (match (fetch (normalize u)).next with
        | none => some (acc ++ (fetch (normalize u)).data.getD [])
        | some nxt => srWalk fetch normalize fuel nxt (acc ++ (fetch (normalize u)).data.getD [])) = _
      rw [hnone]
      simp
  | step u v ps hnext _ ih =>
    intro fuel acc hfuel
    rcases fuel with _ | fuel
    · exact absurd hfuel (by simp)
    · show (match (fetch (normalize u)).next with
        | none => some (acc ++ (fetch (normalize u)).data.getD [])
        | some nxt => srWalk fetch normalize fuel nxt (acc ++ (fetch (normalize u)).data.getD [])) = _
      rw [hnext]
      dsimp only
      rw [ih fuel _ (by simpa using hfuel)]
      simp

/-- A server that always answers with the same next link: page 1 of the
adversarial sequence, looping forever. -/
def srAdvFetch : String → SRPage :=
  fun _ => { data := some [{ id := 7, products := [] }], next := some "https://x/page?page=2" }

/-- C2 counterexample property: on the adversarial server that repeats the
same next link, the shiprocket pagination walk never terminates: it neither
returns a result nor raises any pagination-loop failure (the loop has no
loop detection and its result type has no such failure at all), for any
amount of fuel, although the same continuation is seen again at every page. -/
def srAdvLoopsForever : Prop :=
  ∀ fuel acc, srWalk srAdvFetch id fuel "https://x/page?page=1" acc = none

theorem srAdvLoopsForever_holds : srAdvLoopsForever := by
  have haux : ∀ fuel url acc, srWalk srAdvFetch id fuel url acc = none := by
    intro fuel
    induction fuel with
    | zero => intro url acc; rfl
    | succ fuel ih =>
      intro url acc
      show srWalk srAdvFetch id fuel "https://x/page?page=2" _ = none
      exact ih _ _
  intro fuel acc
  exact haux fuel _ acc

end Shiprocket

namespace Amazon

/-- One page of the amazon searchOrders API. -/
structure AZPage where
  orders : Option (List AZOrder)
  nextToken : Option String
deriving DecidableEq

/-- The amazon do-while pagination loop: fetch with the current pagination
token (none on the first call), append the page orders, continue while a
nextToken is present.  fetchPage models one searchOrders call; the fuel
argument makes the do-while loop a total function. -/
def azWalk (fetchPage : Option String → AZPage) :
    Nat → Option String → List AZOrder → Option (List AZOrder)
  | 0, _, _ => none
  | fuel+1, tok, acc =>
    let page := fetchPage tok
    let acc2 := acc ++ page.orders.getD []
    match page.nextToken with
    | none => some acc2
    | some t => azWalk fetchPage fuel (some t) acc2

/-- The finite page chain the amazon server serves from a pagination token. -/
inductive AZServes (fetchPage : Option String → AZPage) :
    Option String → List AZPage → Prop
  | last (tok : Option String) : (fetchPage tok).nextToken = none →
      AZServes fetchPage tok [fetchPage tok]
  | step (tok : Option String) (t : String) (ps : List AZPage) :
      (fetchPage tok).nextToken = some t →
      AZServes fetchPage (some t) ps →
      AZServes fetchPage tok (fetchPage tok :: ps)

/-- On a finite page chain the amazon walk terminates and returns the
accumulator followed by the concatenation of every page's orders, in page
order. -/
theorem azWalk_concat (fetchPage : Option String → AZPage)
    (tok : Option String) (ps : List AZPage) (h : AZServes fetchPage tok ps) :
    ∀ fuel acc, ps.length ≤ fuel →
      azWalk fetchPage fuel tok acc =
        some (acc ++ (ps.map (fun p => p.orders.getD [])).flatten) := by
  induction h with
  | last tok hnone =>
    intro fuel acc hfuel
    rcases fuel with _ | fuel
    · exact absurd hfuel (by simp)
    · show (match (fetchPage tok).nextToken with
        | none => some (acc ++ (fetchPage tok).orders.getD [])
        | some t => azWalk fetchPage fuel (some t) (acc ++ (fetchPage tok).orders.getD [])) = _
      rw [hnone]
      simp
  | step tok t ps hnext _ ih =>
    intro fuel acc hfuel
    rcases fuel with _ | fuel
    · exact absurd hfuel (by simp)
    · show (match (fetchPage tok).nextToken with
        | none => some (acc ++ (fetchPage tok).orders.getD [])
        | some t => azWalk fetchPage fuel (some t) (acc ++ (fetchPage tok).orders.getD [])) = _
      rw [hnext]
      dsimp only
      rw [ih fuel _ (by simpa using hfuel)]
      simp

end Amazon

namespace Refresh

/-- A row of private.api_keys; expiry is the parsed timestamp in
milliseconds, none covering both a null expiry and an unparseable one (the
code treats NaN like an expired key). -/
structure KeyRow where
  id : Nat
  service : String
  key : String
  expiry : Option Int
deriving DecidableEq

/-- 24h in milliseconds. -/
def ONE_DAY_MS : Int := 24 * 60 * 60 * 1000

/-- Ten days in milliseconds. -/
def TEN_DAYS_MS : Int := 10 * ONE_DAY_MS

/-- The refreshTargets filter: only shiprocket and flipkart rows, and only
when the expiry is absent, unparseable, or within one day of now. -/
def needsRefresh (now : Int) (r : KeyRow) : Bool :=
  (r.service = "shiprocket" || r.service = "flipkart") &&
    (match r.expiry with
     | none => true
     | some e => e - now < ONE_DAY_MS)

/-- The successful outcomes of the refresh handler. -/
inductive RefreshOutcome : Type
  | noneNeeded : RefreshOutcome
  | refreshed : List KeyRow → List String → RefreshOutcome
deriving DecidableEq

/-- The update loop over the refresh targets: each target row is overwritten
with the token and expiry of its service; a target whose service has no
fetched token throws. -/
def applyUpdates (srTok fkTok : Option (String × Int)) :
    List KeyRow → List KeyRow → Except String (List KeyRow × List String)
  | rows, [] => Except.ok (rows, [])
  | rows, row :: rest =>
    let cred := if row.service = "shiprocket" then srTok
      else if row.service = "flipkart" then fkTok else none
    match cred with
    | none => Except.error ("Unable to refresh token for service: " ++ row.service)
    | some (k, e) =>
      match applyUpdates srTok fkTok
          (rows.map (fun r => if r.id = row.id then { r with key := k, expiry := some e } else r))
          rest with
      | Except.error msg => Except.error msg
      | Except.ok (rows2, svcs) => Except.ok (rows2, row.service :: svcs)

/-- The refresh-api-keys handler core: compute the targets; if none, report
so; otherwise fetch a shiprocket token first when any target needs it (its
expiry is now + ten days), then a flipkart token when any target needs it
(token and expiry from the auth response), aborting the whole invocation on
the first failure; finally run the update loop.  srAuth and fkAuth model the
two auth-endpoint calls. -/
def refreshApiKeys (now : Int) (rows : List KeyRow)
    (srAuth : Except String String) (fkAuth : Except String (String × Int)) :
    Except String RefreshOutcome :=
  let targets := rows.filter (needsRefresh now)
  if targets = [] then Except.ok RefreshOutcome.noneNeeded
  else
    match (if targets.any (fun r => r.service = "shiprocket") then
        srAuth.map (fun t => some (t, now + TEN_DAYS_MS)) else Except.ok none) with
    | Except.error e => Except.error e
    | Except.ok srTok =>
      match (if targets.any (fun r => r.service = "flipkart") then
          fkAuth.map some else Except.ok none) with
      | Except.error e => Except.error e
      | Except.ok fkTok =>
        match applyUpdates srTok fkTok rows targets with
        | Except.error e => Except.error e
        | Except.ok (rows2, svcs) => Except.ok (RefreshOutcome.refreshed rows2 svcs)

theorem refresh_shiprocket_failure_blocks (now : Int) (rows : List KeyRow) (e : String)
    (fkAuth : Except String (String × Int))
    (h : (rows.filter (needsRefresh now)).any (fun r => r.service = "shiprocket")) :
    refreshApiKeys now rows (Except.error e) fkAuth = Except.error e := by
  simp only [refreshApiKeys]
  have hne : rows.filter (needsRefresh now) ≠ [] := by
    intro hnil
    rw [hnil] at h
    simp at h
  rw [if_neg hne, if_pos h]
  rfl

theorem refresh_flipkart_failure_blocks (now : Int) (rows : List KeyRow) (s : String)
    (e : String) (hne : rows.filter (needsRefresh now) ≠ [])
    (hfk : (rows.filter (needsRefresh now)).any (fun r => r.service = "flipkart")) :
    refreshApiKeys now rows (Except.ok s) (Except.error e) = Except.error e := by
  simp only [refreshApiKeys]
  rw [if_neg hne]
  by_cases hsr : (rows.filter (needsRefresh now)).any (fun r => r.service = "shiprocket")
  · rw [if_pos hsr]
    dsimp only [Except.map]
    rw [if_pos hfk]
  · rw [if_neg hsr]
    dsimp only
    rw [if_pos hfk]
    rfl

theorem applyUpdates_ok (srTok fkTok : Option (String × Int)) :
    ∀ targets : List KeyRow,
      (∀ r ∈ targets, (if r.service = "shiprocket" then srTok
        else if r.service = "flipkart" then fkTok else none) ≠ none) →
      ∀ rows, ∃ out, applyUpdates srTok fkTok rows targets = Except.ok out := by
  intro targets
  induction targets with
  | nil =>
    intro _ rows
    exact ⟨(rows, []), rfl⟩
  | cons row rest ih =>
    intro h rows
    have hr := h row (List.mem_cons_self _ _)
    rcases hcred : (if row.service = "shiprocket" then srTok
      else if row.service = "flipkart" then fkTok else none) with _ | ke
    · exact absurd hcred hr
    · rcases ke with ⟨k, e⟩
      rcases ih (fun r hr2 => h r (List.mem_cons_of_mem _ hr2))
          (rows.map (fun r => if r.id = row.id then { r with key := k, expiry := some e }
            else r)) with ⟨⟨rows2, svcs⟩, hout⟩
      refine ⟨(rows2, row.service :: svcs), ?_⟩
      simp only [applyUpdates]
      rw [hcred]
      dsimp only
      rw [hout]

theorem refresh_targets_service (now : Int) (rows : List KeyRow) (r : KeyRow)
    (h : r ∈ rows.filter (needsRefresh now)) :
    r.service = "shiprocket" ∨ r.service = "flipkart" := by
  rcases List.mem_filter.mp h with ⟨_, hcond⟩
  unfold needsRefresh at hcond
  rw [Bool.and_eq_true] at hcond
  rcases hcond with ⟨h1, _⟩
  rw [Bool.or_eq_true] at h1
  rcases h1 with h1 | h1
  · exact Or.inl (by simpa using h1)
  · exact Or.inr (by simpa using h1)

theorem refresh_both_ok (now : Int) (rows : List KeyRow) (s : String) (fk : String × Int)
    (hne : rows.filter (needsRefresh now) ≠ []) :
    ∃ rows2 svcs, refreshApiKeys now rows (Except.ok s) (Except.ok fk) =
      Except.ok (RefreshOutcome.refreshed rows2 svcs) := by
  simp only [refreshApiKeys]
  rw [if_neg hne]
  by_cases hsr : (rows.filter (needsRefresh now)).any (fun r => r.service = "shiprocket") <;>
    by_cases hfk : (rows.filter (needsRefresh now)).any (fun r => r.service = "flipkart")
  all_goals
    first
      | rw [if_pos hsr]
      | rw [if_neg hsr]
  all_goals
    dsimp only [Except.map]
  all_goals
    first
      | rw [if_pos hfk]
      | rw [if_neg hfk]
  all_goals
    dsimp only [Except.map]
  · have hcond : ∀ r ∈ rows.filter (needsRefresh now),
        (if r.service = "shiprocket" then (some (s, now + TEN_DAYS_MS) : Option (String × Int))
         else if r.service = "flipkart" then some fk else none) ≠ none := by
      intro r hr
      rcases refresh_targets_service now rows r hr with hs | hs <;> simp [hs]
    rcases applyUpdates_ok _ _ _ hcond rows with ⟨⟨rows2, svcs⟩, hout⟩
    rw [hout]
    exact ⟨rows2, svcs, rfl⟩
  · have hcond : ∀ r ∈ rows.filter (needsRefresh now),
        (if r.service = "shiprocket" then (some (s, now + TEN_DAYS_MS) : Option (String × Int))
         else if r.service = "flipkart" then none else none) ≠ none := by
      intro r hr
      rcases refresh_targets_service now rows r hr with hs | hs
      · simp [hs]
      · exact absurd (List.any_eq_true.mpr ⟨r, hr, by simp [hs]⟩) hfk
    rcases applyUpdates_ok _ _ _ hcond rows with ⟨⟨rows2, svcs⟩, hout⟩
    rw [hout]
    exact ⟨rows2, svcs, rfl⟩
  · have hcond : ∀ r ∈ rows.filter (needsRefresh now),
        (if r.service = "shiprocket" then (none : Option (String × Int))
         else if r.service = "flipkart" then some fk else none) ≠ none := by
      intro r hr
      rcases refresh_targets_service now rows r hr with hs | hs
      · exact absurd (List.any_eq_true.mpr ⟨r, hr, by simp [hs]⟩) hsr
      · simp [hs]
    rcases applyUpdates_ok _ _ _ hcond rows with ⟨⟨rows2, svcs⟩, hout⟩
    rw [hout]
    exact ⟨rows2, svcs, rfl⟩
  · exfalso
    rcases hex : rows.filter (needsRefresh now) with _ | ⟨r, rest⟩
    · exact hne hex
    · have hr : r ∈ rows.filter (needsRefresh now) := by
        rw [hex]; exact List.mem_cons_self _ _
      rcases refresh_targets_service now rows r hr with hs | hs
      · exact hsr (List.any_eq_true.mpr ⟨r, hr, by simp [hs]⟩)
      · exact hfk (List.any_eq_true.mpr ⟨r, hr, by simp [hs]⟩)

end Refresh

namespace Vyapar

/-- Vyapar parseNumber: strips non-numeric characters like the shiprocket
parser but falls back to null instead of 0. -/
def parseNumber : NumInput → Option ℚ
  | NumInput.null => none
  | NumInput.str s => if s = "" then none else jsNumber (Shiprocket.stripNonNumeric s)
  | NumInput.num q => some (jsNumOfNum q)

/-- Math.round: round half towards positive infinity. -/
def jsRound (q : ℚ) : ℤ := ⌊q + 1 / 2⌋

/-- Vyapar parseInteger: parseNumber then Math.round. -/
def parseInteger (v : NumInput) : Option ℤ :=
  (parseNumber v).map jsRound

/-- Digits split of a character list: longest digit prefix and the rest. -/
def takeDigits (cs : List Char) : List Char × List Char :=
  (cs.takeWhile Char.isDigit, cs.dropWhile Char.isDigit)

/-- The leading-number regex of parseLeadingNumber: an optional minus sign,
a nonempty digit run, and optionally a dot followed by a nonempty digit run,
anchored at the start; anything after the match is ignored. -/
def parseLeadingCore (cs : List Char) : Option ℚ :=
  let signSplit : Bool × List Char :=
    match cs with
    | '-' :: rest => (true, rest)
    | _ => (false, cs)
  let ds := (takeDigits signSplit.2).1
  let rest := (takeDigits signSplit.2).2
  if ds = [] then none
  else
    let intVal : ℚ := digitsToNat ds
    let fracVal : ℚ :=
      match rest with
      | '.' :: rest2 =>
        let fs := (takeDigits rest2).1
        if fs = [] then 0 else (digitsToNat fs : ℚ) / (10 : ℚ) ^ fs.length
      | _ => 0
    let v := intVal + fracVal
    some (if signSplit.1 then -v else v)

/-- Vyapar parseLeadingNumber: numbers pass through; strings are trimmed and
the leading decimal-number prefix is parsed, null when there is none. -/
def parseLeadingNumber : NumInput → Option ℚ
  | NumInput.null => none
  | NumInput.str s => if s = "" then none else parseLeadingCore (trimWs s.data)
  | NumInput.num q => some (jsNumOfNum q)

/-- JavaScript falsiness of an optional integer: null and 0 are falsy. -/
def truthyInt : Option ℤ → Option ℤ
  | some n => if n = 0 then none else some n
  | none => none

/-- One row of the Sale Report sheet as produced by sheet_to_json
(defval null, raw false).  Date cells reach the parser as strings or
spreadsheet serial numbers; Date instances do not arise in this mode. -/
structure SaleReportRow where
  date : NumInput
  partyName : Option String
  phoneNo : Option String
  invoiceNo : NumInput
  transactionType : Option String
deriving DecidableEq

/-- A row of sales.vyapar_sales. -/
structure VSaleRow where
  invoice_no : ℤ
  sale_date : String
  customer_name : Option String
  customer_phone : Option String
deriving DecidableEq

/-- The salesRows pipeline: keep rows whose transaction type lower-cases to
the literal sale, drop every row whose parsed invoice number is falsy (null
or zero) or whose parsed date is falsy, and build the canonical row.  pdv
models parseDateFromVyapar (spreadsheet serial dates via the external SSF
library, the day/month/year literal format, and the JavaScript Date parse). -/
def salesRows (pdv : NumInput → Option String) (rows : List SaleReportRow) : List VSaleRow :=
  (rows.filter (fun row => lowerStr (row.transactionType.getD "") = "sale")).filterMap
    (fun row =>
      match truthyInt (parseInteger row.invoiceNo), truthyStr (pdv row.date) with
      | some inv, some d =>
        some { invoice_no := inv
               sale_date := d
               customer_name := truthyStr (row.partyName.map String.trim)
               customer_phone := row.phoneNo.map String.trim }
      | _, _ => none)

/-- The set of invoice numbers of the kept sales rows. -/
def validInvoices (pdv : NumInput → Option String) (rows : List SaleReportRow) : List ℤ :=
  (salesRows pdv rows).map (fun r => r.invoice_no)

/-- One row of the Sale Items sheet. -/
structure SaleItemsRow where
  invoiceNo : NumInput
  itemCode : Option String
  quantity : NumInput
  amount : NumInput
  gst : NumInput
deriving DecidableEq

/-- A row of sales.vyapar_items. -/
structure VItemRow where
  invoice_no : ℤ
  sku : String
  quantity : ℤ
  net_price : ℚ
deriving DecidableEq

/-- One step of the itemAggregate loop: a line with a falsy invoice, falsy
sku, or null quantity, amount or gst is skipped; a line whose invoice is not
among the kept sales rows is skipped; otherwise the line is merged into the
map entry of its key, summing quantity and net price (amount minus gst).
The code keys its Map by the template string invoice::sku; since the decimal
rendering of the invoice integer contains no colon that string determines
the pair, so the key is modelled as the pair. -/
def itemFoldStep (valid : List ℤ) (m : List ((ℤ × String) × VItemRow))
    (row : SaleItemsRow) : List ((ℤ × String) × VItemRow) :=
  match truthyInt (parseInteger row.invoiceNo), truthyStr (row.itemCode.map String.trim),
      parseInteger row.quantity, parseNumber row.amount, parseLeadingNumber row.gst with
  | some inv, some sku, some qty, some amount, some gst =>
    if inv ∈ valid then
      let netPrice := amount - gst
      let key := (inv, sku)
      match (m.find? (fun e => e.1 = key)).map Prod.snd with
      | some existing =>
        let merged : VItemRow :=
          { existing with
            quantity := existing.quantity + qty
            net_price := existing.net_price + netPrice }
        m.map (fun e => if e.1 = key then (key, merged) else e)
      | none =>
        m ++ [(key, { invoice_no := inv, sku := sku, quantity := qty, net_price := netPrice })]
    else m
  | _, _, _, _, _ => m

/-- itemAggregate after the whole Sale Items sheet. -/
def itemAggregate (valid : List ℤ) (rows : List SaleItemsRow) :
    List ((ℤ × String) × VItemRow) :=
  rows.foldl (itemFoldStep valid) []

/-- The itemsRows payload: the map values in insertion order, net price
rounded to two decimals. -/
def itemsRows (valid : List ℤ) (rows : List SaleItemsRow) : List VItemRow :=
  ((itemAggregate valid rows).map Prod.snd).map
    (fun item => { item with net_price := toFixed2 item.net_price })

/-- The item output of the vyapar import for a given Sale Report sheet. -/
def vyaparItemsOut (pdv : NumInput → Option String) (reportRows : List SaleReportRow)
    (itemsIn : List SaleItemsRow) : List VItemRow :=
  itemsRows (validInvoices pdv reportRows) itemsIn

/-- The contribution one Sale Items line makes to the (inv, sku) aggregate:
its parsed quantity and net price when the line passes validation, carries
that key and references a kept invoice; nothing otherwise. -/
def contribOf (valid : List ℤ) (inv : ℤ) (sku : String) (row : SaleItemsRow) :
    Option (ℤ × ℚ) :=
  match truthyInt (parseInteger row.invoiceNo), truthyStr (row.itemCode.map String.trim),
      parseInteger row.quantity, parseNumber row.amount, parseLeadingNumber row.gst with
  | some inv2, some sku2, some qty, some amount, some gst =>
    if inv2 ∈ valid then
      (if inv2 = inv ∧ sku2 = sku then some (qty, amount - gst) else none)
    else none
  | _, _, _, _, _ => none

/-- All contributions to the (inv, sku) aggregate, in sheet order. -/
def contributions (valid : List ℤ) (rows : List SaleItemsRow) (inv : ℤ) (sku : String) :
    List (ℤ × ℚ) :=
  rows.filterMap (contribOf valid inv sku)

/-- Merging one contribution into the running aggregate of a key. -/
def addContrib (inv : ℤ) (sku : String) (acc : Option VItemRow) (c : ℤ × ℚ) :
    Option VItemRow :=
  match acc with
  | none => some { invoice_no := inv, sku := sku, quantity := c.1, net_price := c.2 }
  | some e => some { e with quantity := e.quantity + c.1, net_price := e.net_price + c.2 }

theorem alookup_itemFoldStep (valid : List ℤ) (m : List ((ℤ × String) × VItemRow))
    (row : SaleItemsRow) (inv : ℤ) (sku : String) :
    alookup (itemFoldStep valid m row) (inv, sku) =
      match contribOf valid inv sku row with
      | none => alookup m (inv, sku)
      | some c => addContrib inv sku (alookup m (inv, sku)) c := by
  unfold itemFoldStep contribOf
  rcases h1 : truthyInt (parseInteger row.invoiceNo) with _ | inv2
  · rfl
  rcases h2 : truthyStr (row.itemCode.map String.trim) with _ | sku2
  · rfl
  rcases h3 : parseInteger row.quantity with _ | qty
  · rfl
  rcases h4 : parseNumber row.amount with _ | amount
  · rfl
  rcases h5 : parseLeadingNumber row.gst with _ | gst
  · rfl
  dsimp only
  by_cases hval : inv2 ∈ valid
  · rw [if_pos hval, if_pos hval]
    by_cases hk : inv2 = inv ∧ sku2 = sku
    · rw [if_pos hk]
      rcases hk with ⟨rfl, rfl⟩
      have hshow : (m.find? (fun e => e.1 = (inv2, sku2))).map Prod.snd =
          alookup m (inv2, sku2) := rfl
      rcases hfind : alookup m (inv2, sku2) with _ | existing
      · rw [hshow, hfind]
        dsimp only
        exact alookup_append_absent m (inv2, sku2) _ hfind
      · rw [hshow, hfind]
        dsimp only
        rw [alookup_replace_same m (inv2, sku2) _, hfind]
        rfl
    · rw [if_neg hk]
      have hkne : ((inv2, sku2) : ℤ × String) ≠ (inv, sku) := by
        intro hcontra
        exact hk ⟨congrArg Prod.fst hcontra, congrArg Prod.snd hcontra⟩
      have hshow : (m.find? (fun e => e.1 = (inv2, sku2))).map Prod.snd =
          alookup m (inv2, sku2) := rfl
      rcases hfind : alookup m (inv2, sku2) with _ | existing
      · rw [hshow, hfind]
        dsimp only
        exact alookup_append_other m _ _ _ hkne
      · rw [hshow, hfind]
        dsimp only
        exact alookup_replace_other m _ _ _ hkne
  · rw [if_neg hval, if_neg hval]

theorem alookup_itemAggregate_fold (valid : List ℤ) (rows : List SaleItemsRow)
    (inv : ℤ) (sku : String) :
    ∀ m, alookup (rows.foldl (itemFoldStep valid) m) (inv, sku) =
      (contributions valid rows inv sku).foldl (addContrib inv sku) (alookup m (inv, sku)) := by
  induction rows with
  | nil => intro m; rfl
  | cons row rest ih =>
    intro m
    show alookup (rest.foldl (itemFoldStep valid) (itemFoldStep valid m row)) (inv, sku) = _
    rw [ih, alookup_itemFoldStep]
    rcases hc : contribOf valid inv sku row with _ | c
    · have : contributions valid (row :: rest) inv sku = contributions valid rest inv sku := by
        unfold contributions
        rw [List.filterMap_cons, hc]
      rw [this]
    · have : contributions valid (row :: rest) inv sku =
          c :: contributions valid rest inv sku := by
        unfold contributions
        rw [List.filterMap_cons, hc]
      rw [this]
      rfl

/-- Well-formedness of the aggregate map: keys are unique, every entry
carries its key in its fields, and every entry references a kept invoice. -/
def AggWF (valid : List ℤ) (m : List ((ℤ × String) × VItemRow)) : Prop :=
  (m.map Prod.fst).Nodup ∧
    ∀ e ∈ m, e.2.invoice_no = e.1.1 ∧ e.2.sku = e.1.2 ∧ e.1.1 ∈ valid

theorem aggWF_itemFoldStep (valid : List ℤ) (m : List ((ℤ × String) × VItemRow))
    (row : SaleItemsRow) (h : AggWF valid m) : AggWF valid (itemFoldStep valid m row) := by
  unfold itemFoldStep
  rcases h1 : truthyInt (parseInteger row.invoiceNo) with _ | inv2
  · exact h
  rcases h2 : truthyStr (row.itemCode.map String.trim) with _ | sku2
  · exact h
  rcases h3 : parseInteger row.quantity with _ | qty
  · exact h
  rcases h4 : parseNumber row.amount with _ | amount
  · exact h
  rcases h5 : parseLeadingNumber row.gst with _ | gst
  · exact h
  dsimp only
  by_cases hval : inv2 ∈ valid
  · rw [if_pos hval]
    have hshow : (m.find? (fun e => e.1 = (inv2, sku2))).map Prod.snd =
        alookup m (inv2, sku2) := rfl
    rcases hfind : alookup m (inv2, sku2) with _ | existing
    · rw [hshow, hfind]
      dsimp only
      rcases h with ⟨hnodup, hfields⟩
      constructor
      · rw [List.map_append, List.map_cons, List.map_nil, List.nodup_append]
        refine ⟨hnodup, List.nodup_singleton _, ?_⟩
        intro k hk1 hk2
        rcases List.mem_singleton.mp hk2 with rfl
        rcases List.mem_map.mp hk1 with ⟨e, he, hke⟩
        unfold alookup at hfind
        rcases hff : m.find? (fun x => decide (x.1 = ((inv2, sku2) : ℤ × String))) with _ | e2
        · have := List.find?_eq_none.mp hff e he
          simp [hke] at this
        · rw [hff] at hfind
          exact Option.noConfusion hfind
      · intro e he
        rcases List.mem_append.mp he with he | he
        · exact hfields e he
        · rcases List.mem_singleton.mp he with rfl
          exact ⟨rfl, rfl, hval⟩
    · rw [hshow, hfind]
      dsimp only
      rcases h with ⟨hnodup, hfields⟩
      constructor
      · have hkeys : ∀ v : VItemRow,
            ((m.map (fun e => if e.1 = ((inv2, sku2) : ℤ × String)
              then (((inv2, sku2) : ℤ × String), v) else e)).map Prod.fst) =
            m.map Prod.fst := by
          intro v
          rw [List.map_map]
          refine List.map_congr_left ?_
          intro e _
          by_cases he : e.1 = ((inv2, sku2) : ℤ × String) <;> simp [he]
        rw [hkeys]
        exact hnodup
      · intro e he
        rcases List.mem_map.mp he with ⟨e0, he0, hfe⟩
        by_cases hek : e0.1 = ((inv2, sku2) : ℤ × String)
        · rw [if_pos hek] at hfe
          rw [← hfe]
          have hex : existing.invoice_no = inv2 ∧ existing.sku = sku2 := by
            unfold alookup at hfind
            rcases hff : m.find? (fun x => decide (x.1 = ((inv2, sku2) : ℤ × String)))
              with _ | e2
            · rw [hff] at hfind; exact Option.noConfusion hfind
            · rw [hff] at hfind
              simp only [Option.map_some', Option.some.injEq] at hfind
              have he2 : e2.1 = ((inv2, sku2) : ℤ × String) := by
                have := List.find?_some hff
                simpa using this
              have he2m : e2 ∈ m := List.mem_of_find?_eq_some hff
              rcases hfields e2 he2m with ⟨ha, hb, _⟩
              refine ⟨?_, ?_⟩
              · rw [← hfind, ha, he2]
              · rw [← hfind, hb, he2]
          exact ⟨hex.1, hex.2, hval⟩
        · rw [if_neg hek] at hfe
          rw [← hfe]
          exact hfields e0 he0
  · rw [if_neg hval]
    exact h

theorem aggWF_itemAggregate (valid : List ℤ) (rows : List SaleItemsRow) :
    AggWF valid (itemAggregate valid rows) := by
  unfold itemAggregate
  have haux : ∀ m, AggWF valid m → AggWF valid (rows.foldl (itemFoldStep valid) m) := by
    induction rows with
    | nil => intro m hm; exact hm
    | cons row rest ih =>
      intro m hm
      exact ih _ (aggWF_itemFoldStep valid m row hm)
  exact haux [] ⟨List.nodup_nil, by intro e he; exact absurd he (List.not_mem_nil e)⟩

theorem addContrib_fold_some (inv : ℤ) (sku : String) (cs : List (ℤ × ℚ)) :
    ∀ e : VItemRow, cs.foldl (addContrib inv sku) (some e) =
      some { e with quantity := e.quantity + (cs.map Prod.fst).sum,
                    net_price := e.net_price + (cs.map Prod.snd).sum } := by
  induction cs with
  | nil => intro e; simp
  | cons c rest ih =>
    intro e
    show rest.foldl (addContrib inv sku) (addContrib inv sku (some e) c) = _
    show rest.foldl (addContrib inv sku)
      (some { e with quantity := e.quantity + c.1, net_price := e.net_price + c.2 }) = _
    rw [ih]
    simp [add_assoc]

theorem addContrib_fold_none (inv : ℤ) (sku : String) (cs : List (ℤ × ℚ)) (hne : cs ≠ []) :
    cs.foldl (addContrib inv sku) none =
      some { invoice_no := inv, sku := sku, quantity := (cs.map Prod.fst).sum,
             net_price := (cs.map Prod.snd).sum } := by
  rcases cs with _ | ⟨c, rest⟩
  · exact absurd rfl hne
  · show rest.foldl (addContrib inv sku)
      (some { invoice_no := inv, sku := sku, quantity := c.1, net_price := c.2 }) = _
    rw [addContrib_fold_some]
    simp

theorem itemsRows_filter_key (valid : List ℤ) (rows : List SaleItemsRow)
    (inv : ℤ) (sku : String) :
    (itemsRows valid rows).filter (fun r => r.invoice_no = inv ∧ r.sku = sku) =
      match alookup (itemAggregate valid rows) (inv, sku) with
      | none => []
      | some v => [{ v with net_price := toFixed2 v.net_price }] := by
  rcases aggWF_itemAggregate valid rows with ⟨hnodup, hfields⟩
  unfold itemsRows
  rw [List.filter_map, List.filter_map]
  have hcongr : (itemAggregate valid rows).filter
      (((fun r : VItemRow => decide (r.invoice_no = inv ∧ r.sku = sku)) ∘
        (fun item : VItemRow => { item with net_price := toFixed2 item.net_price })) ∘ Prod.snd) =
      (itemAggregate valid rows).filter (fun e => e.1 = (inv, sku)) := by
    refine List.filter_congr ?_
    intro e he
    rcases hfields e he with ⟨hinv, hsku, _⟩
    show decide (e.2.invoice_no = inv ∧ e.2.sku = sku) = decide (e.1 = (inv, sku))
    rw [hinv, hsku]
    by_cases hk : e.1 = (inv, sku)
    · simp [hk]
    · have hne : ¬(e.1.1 = inv ∧ e.1.2 = sku) := by
        intro hcontra
        exact hk (Prod.ext hcontra.1 hcontra.2)
      simp [hk, hne]
  rw [hcongr, filter_key_of_nodup _ _ hnodup]
  unfold alookup
  rcases hff : (itemAggregate valid rows).find? (fun e => e.1 = (inv, sku)) with _ | e
  · rw [hff]
    rfl
  · rw [hff]
    rfl

theorem salesRows_sound (pdv : NumInput → Option String) (rows : List SaleReportRow)
    (out : VSaleRow) (h : out ∈ salesRows pdv rows) :
    ∃ raw ∈ rows, lowerStr (raw.transactionType.getD "") = "sale" ∧
      truthyInt (parseInteger raw.invoiceNo) = some out.invoice_no ∧
      truthyStr (pdv raw.date) = some out.sale_date := by
  rcases List.mem_filterMap.mp h with ⟨raw, hraw, hmk⟩
  rcases List.mem_filter.mp hraw with ⟨hrawmem, hcond⟩
  refine ⟨raw, hrawmem, by simpa using hcond, ?_⟩
  rcases hinv : truthyInt (parseInteger raw.invoiceNo) with _ | inv
  · simp [hinv] at hmk
  · simp only [hinv] at hmk
    rcases hdate : truthyStr (pdv raw.date) with _ | d
    · simp [hdate] at hmk
    · simp only [hdate, Option.some.injEq] at hmk
      rw [← hmk]
      exact ⟨rfl, rfl⟩

theorem salesRows_complete (pdv : NumInput → Option String) (rows : List SaleReportRow)
    (raw : SaleReportRow) (hmem : raw ∈ rows)
    (hsale : lowerStr (raw.transactionType.getD "") = "sale") (inv : ℤ)
    (hinv : truthyInt (parseInteger raw.invoiceNo) = some inv) (d : String)
    (hd : truthyStr (pdv raw.date) = some d) :
    (⟨inv, d, truthyStr (raw.partyName.map String.trim), raw.phoneNo.map String.trim⟩ :
      VSaleRow) ∈ salesRows pdv rows := by
  refine List.mem_filterMap.mpr ⟨raw, List.mem_filter.mpr ⟨hmem, by simpa using hsale⟩, ?_⟩
  rw [hinv, hd]

theorem itemsRows_invoice_valid (valid : List ℤ) (rows : List SaleItemsRow) (r : VItemRow)
    (h : r ∈ itemsRows valid rows) : r.invoice_no ∈ valid := by
  unfold itemsRows at h
  rcases List.mem_map.mp h with ⟨v, hv, hvr⟩
  rcases List.mem_map.mp hv with ⟨e, he, hev⟩
  rcases (aggWF_itemAggregate valid rows).2 e he with ⟨hinv, _, hval⟩
  rw [← hvr]
  show v.invoice_no ∈ valid
  rw [← hev, hinv]
  exact hval

end Vyapar

/-- C1 counterexample: the claim fails as stated on the shiprocket sync.  A
stored item row for order 1 survives a successful run that reports order 1
with an empty product list, although the run's item-key set for order 1 is
empty: itemsToInsert is empty, so the sync skips both the upsert and the
per-order cleanup and the stale row is neither replaced nor deleted. -/
theorem c1_counterexample :
    Shiprocket.syncShiprocketItems
        [{ shiprocket_order_id := 1, sku := "OLD-SKU", quantity := 1, selling_price := 5 }]
        [{ id := 1, products := [] }] =
      [{ shiprocket_order_id := 1, sku := "OLD-SKU", quantity := 1, selling_price := 5 }] ∧
    Shiprocket.skusFor [{ id := 1, products := [] }] 1 = [] := by
  constructor
  · rfl
  · rfl

/-- C1 (amended): item authority holds per connector with the provisos the
code forces.  Shiprocket: for every touched order whose batch sku set is
nonempty, after the run the stored keys for that order are exactly the batch
skus, for any prior store (an order with an empty product list keeps its
stale items).  Amazon: for every kept (non-NON_AMAZON) order the stored
(order, item id) keys are exactly the batch keys, unconditionally.
Flipkart: the same holds for every shipment that made it into
ordersToUpsert (truthy shipment id and a first order item with a truthy
order id) and whose id is unique in the batch.  In all three syncs, items of
orders the run did not touch are never deleted or changed. -/
theorem c1_item_authority_amended :
    (∀ (store : List Shiprocket.SRItemRow) (orders : List Shiprocket.SROrder) (oid : Nat),
      oid ∈ orders.map (fun o => o.id) → Shiprocket.skusFor orders oid ≠ [] →
      ∀ s, (∃ r ∈ Shiprocket.syncShiprocketItems store orders,
          r.shiprocket_order_id = oid ∧ r.sku = s) ↔ s ∈ Shiprocket.skusFor orders oid) ∧
    (∀ (store : List Shiprocket.SRItemRow) (orders : List Shiprocket.SROrder)
      (r : Shiprocket.SRItemRow), r.shiprocket_order_id ∉ orders.map (fun o => o.id) →
      (r ∈ Shiprocket.syncShiprocketItems store orders ↔ r ∈ store)) ∧
    (∀ (store : List Amazon.AZItemRow) (orders : List Amazon.AZOrder) (oid : String),
      oid ∈ (Amazon.filteredOrders orders).map (fun o => o.orderId) →
      ∀ k, (∃ r ∈ Amazon.syncAmazonItems store orders,
          r.order_id = oid ∧ r.amazon_item_id = k) ↔
        ∃ i ∈ Amazon.azItemsToUpsert (Amazon.filteredOrders orders),
          i.order_id = oid ∧ i.amazon_item_id = k) ∧
    (∀ (store : List Amazon.AZItemRow) (orders : List Amazon.AZOrder) (r : Amazon.AZItemRow),
      r.order_id ∉ (Amazon.filteredOrders orders).map (fun o => o.orderId) →
      (r ∈ Amazon.syncAmazonItems store orders ↔ r ∈ store)) ∧
    (∀ (pd : String → Option String) (nowIso : String) (store : List FlipkartSync.FKItemRow)
      (shipments : List FlipkartSync.FKShipment) (S : FlipkartSync.FKShipment) (sid : String),
      S ∈ shipments → truthyStr S.shipmentId = some sid →
      (∀ sh ∈ shipments, truthyStr sh.shipmentId = some sid → sh = S) →
      ∀ firstItem : FlipkartSync.FKOrderItem, S.orderItems.head? = some firstItem →
      ∀ oid : String, truthyStr firstItem.orderId = some oid →
      ∀ k, (∃ r ∈ FlipkartSync.syncFlipkartItems pd nowIso store shipments,
          r.shipment_id = sid ∧ r.order_item_id = k) ↔
        ∃ it ∈ S.orderItems, truthyStr it.orderItemId = some k) ∧
    (∀ (pd : String → Option String) (nowIso : String) (store : List FlipkartSync.FKItemRow)
      (shipments : List FlipkartSync.FKShipment) (r : FlipkartSync.FKItemRow),
      r.shipment_id ∉ shipments.filterMap (fun sh => truthyStr sh.shipmentId) →
      (r ∈ FlipkartSync.syncFlipkartItems pd nowIso store shipments ↔ r ∈ store)) :=
  ⟨fun store orders oid hmem hne s =>
      Shiprocket.shiprocket_item_authority store orders oid hmem hne s,
    fun store orders r h => Shiprocket.shiprocket_untouched_preserved store orders r h,
    fun store orders oid hmem k => Amazon.amazon_item_authority store orders oid hmem k,
    fun store orders r h => Amazon.amazon_untouched_preserved store orders r h,
    fun pd nowIso store shipments S sid hS hsid huniq firstItem hhead oid hoid k =>
      FlipkartSync.flipkart_item_authority pd nowIso store shipments S sid hS hsid huniq
        firstItem hhead oid hoid k,
    fun pd nowIso store shipments r h =>
      FlipkartSync.flipkart_untouched_preserved pd nowIso store shipments r h⟩

/-- C1 witness: the amended theorem applied to a concrete shiprocket run.
A run reporting order 1 with sku A leaves a row keyed (1, A) in the store. -/
theorem c1_witness :
    ∃ r ∈ Shiprocket.syncShiprocketItems
        [{ shiprocket_order_id := 1, sku := "STALE", quantity := 1, selling_price := 2 }]
        [{ id := 1, products := [⟨"A", 2, 10, 3⟩] }],
      r.shiprocket_order_id = 1 ∧ r.sku = "A" :=
  (c1_item_authority_amended.1
    [{ shiprocket_order_id := 1, sku := "STALE", quantity := 1, selling_price := 2 }]
    [{ id := 1, products := [⟨"A", 2, 10, 3⟩] }]
    1 (by decide) (by decide) "A").mpr (by decide)

/-- C2 witness: the fail-fast theorem applied to a concrete server that
repeats the continuation token T: the cancellation walk throws
paginationLoop instead of looping. -/
theorem c2_witness :
    FlipkartCancel.collectCancelled (fun u => some u)
        (fun _ => ⟨true, some "T", []⟩) 2 ⟨true, some "T", []⟩ [] [] =
      some (Except.error FlipkartCancel.PageErr.paginationLoop) :=
  FlipkartCancel.collectCancelled_failfast (fun u => some u)
    (fun _ => ⟨true, some "T", []⟩) ⟨true, some "T", []⟩ ["T"] ⟨true, some "T", []⟩
    (FlipkartCancel.Follows.step _ "T" "T" [] _ rfl (by decide) rfl
      (FlipkartCancel.Follows.refl _))
    "T" "T" rfl (by decide) rfl [] [] 2 (by decide) (by decide) (Or.inl (by decide))
    (by decide)

/-- A two-page shiprocket server for the pagination witness. -/
def c3srFetch : String → Shiprocket.SRPage :=
  fun u => if u = "p1" then ⟨some [⟨1, []⟩], some "p2"⟩ else ⟨some [⟨2, []⟩], none⟩

/-- A two-page amazon server for the pagination witness. -/
def c3azFetch : Option String → Amazon.AZPage :=
  fun t => if t = none
    then ⟨some [⟨"A1", none, none, none, none, none, none, []⟩], some "t2"⟩
    else ⟨some [⟨"A2", none, none, none, none, none, none, []⟩], none⟩

/-- C3: on any finite page chain the shiprocket and amazon pagination loops
terminate and return exactly the concatenation of every page's records in
fetch order, starting from the accumulator. -/
theorem c3_pagination_concat :
    (∀ (fetch : String → Shiprocket.SRPage) (normalize : String → String) (u : String)
      (ps : List Shiprocket.SRPage), Shiprocket.SRServes fetch normalize u ps →
      ∀ fuel acc, ps.length ≤ fuel →
        Shiprocket.srWalk fetch normalize fuel u acc =
          some (acc ++ (ps.map (fun p => p.data.getD [])).flatten)) ∧
    (∀ (fetchPage : Option String → Amazon.AZPage) (tok : Option String)
      (ps : List Amazon.AZPage), Amazon.AZServes fetchPage tok ps →
      ∀ fuel acc, ps.length ≤ fuel →
        Amazon.azWalk fetchPage fuel tok acc =
          some (acc ++ (ps.map (fun p => p.orders.getD [])).flatten)) :=
  ⟨fun fetch normalize u ps h => Shiprocket.srWalk_concat fetch normalize u ps h,
    fun fetchPage tok ps h => Amazon.azWalk_concat fetchPage tok ps h⟩

/-- C3 witness: both clauses applied to concrete two-page servers give the
two pages' records concatenated in order. -/
theorem c3_witness :
    Shiprocket.srWalk c3srFetch id 2 "p1" [] = some [⟨1, []⟩, ⟨2, []⟩] ∧
    Amazon.azWalk c3azFetch 2 none [] =
      some [⟨"A1", none, none, none, none, none, none, []⟩,
        ⟨"A2", none, none, none, none, none, none, []⟩] := by
  constructor
  · have h := c3_pagination_concat.1 c3srFetch id "p1"
      [c3srFetch (id "p1"), c3srFetch (id "p2")]
      (Shiprocket.SRServes.step "p1" "p2" _ (by decide)
        (Shiprocket.SRServes.last "p2" (by decide))) 2 [] (by decide)
    rw [h]
    decide
  · have h := c3_pagination_concat.2 c3azFetch none
      [c3azFetch none, c3azFetch (some "t2")]
      (Amazon.AZServes.step none "t2" _ (by decide)
        (Amazon.AZServes.last (some "t2") (by decide))) 2 [] (by decide)
    rw [h]
    decide

/-- C5 counterexample: the claim's independence fails.  With both a
shiprocket and a flipkart row due for refresh, a failing shiprocket auth
call makes the whole invocation throw, so the flipkart key — although due
and although its own auth call succeeds — is not refreshed. -/
theorem c5_counterexample :
    Refresh.refreshApiKeys 0
        [⟨1, "shiprocket", "oldsr", none⟩, ⟨2, "flipkart", "oldfk", none⟩]
        (Except.error "shiprocket auth failed") (Except.ok ("newfk", 86400000)) =
      Except.error "shiprocket auth failed" ∧
    Refresh.needsRefresh 0 ⟨2, "flipkart", "oldfk", none⟩ = true := by
  constructor
  · rfl
  · rfl

/-- C5 (amended): the two refreshes are sequential and all-or-nothing, not
independent.  A failing shiprocket auth aborts the invocation whenever any
target needs shiprocket; a failing flipkart auth aborts it whenever any
target needs flipkart, even after a successful shiprocket fetch; and when
both auth calls succeed the handler updates every target and reports the
refreshed services. -/
theorem c5_refresh_not_independent :
    (∀ (now : Int) (rows : List Refresh.KeyRow) (e : String)
      (fkAuth : Except String (String × Int)),
      (rows.filter (Refresh.needsRefresh now)).any (fun r => r.service = "shiprocket") →
      Refresh.refreshApiKeys now rows (Except.error e) fkAuth = Except.error e) ∧
    (∀ (now : Int) (rows : List Refresh.KeyRow) (s e : String),
      rows.filter (Refresh.needsRefresh now) ≠ [] →
      (rows.filter (Refresh.needsRefresh now)).any (fun r => r.service = "flipkart") →
      Refresh.refreshApiKeys now rows (Except.ok s) (Except.error e) = Except.error e) ∧
    (∀ (now : Int) (rows : List Refresh.KeyRow) (s : String) (fk : String × Int),
      rows.filter (Refresh.needsRefresh now) ≠ [] →
      ∃ rows2 svcs, Refresh.refreshApiKeys now rows (Except.ok s) (Except.ok fk) =
        Except.ok (Refresh.RefreshOutcome.refreshed rows2 svcs)) :=
  ⟨fun now rows e fkAuth h => Refresh.refresh_shiprocket_failure_blocks now rows e fkAuth h,
    fun now rows s e hne hfk => Refresh.refresh_flipkart_failure_blocks now rows s e hne hfk,
    fun now rows s fk hne => Refresh.refresh_both_ok now rows s fk hne⟩

/-- C5 witness: the success clause at two concrete due rows: both auth calls
succeeding, the handler reports a refreshed outcome. -/
theorem c5_witness :
    ∃ rows2 svcs, Refresh.refreshApiKeys 0
        [⟨1, "shiprocket", "oldsr", none⟩, ⟨2, "flipkart", "oldfk", none⟩]
        (Except.ok "newsr") (Except.ok ("newfk", 86400000)) =
      Except.ok (Refresh.RefreshOutcome.refreshed rows2 svcs) :=
  c5_refresh_not_independent.2.2 0
    [⟨1, "shiprocket", "oldsr", none⟩, ⟨2, "flipkart", "oldfk", none⟩]
    "newsr" ("newfk", 86400000) (by decide)

/-- C6 counterexample: the claim fails for the amazon connector, whose
parseAmount strips nothing: on the currency-formatted string the claim
names, Number("₹1,234.50") is NaN and the parse returns null rather than
1234.50. -/
theorem c6_counterexample :
    Amazon.parseAmount (NumInput.str "₹1,234.50") = none := by
  rfl

/-- C6 (amended): the shiprocket and vyapar amount parsers strip every
character other than digits, dot and minus before Number(), differing only
in the fallback (0 for shiprocket, null for vyapar): shiprocket's result is
always vyapar's with null defaulted to 0.  The amazon parser strips nothing,
so it agrees with vyapar exactly on strings the strip leaves unchanged, and
on the currency-formatted "₹1,234.50" the stripping parsers read 1234.50
while amazon's returns null.  All three are total and never throw. -/
theorem c6_amount_parsers_amended :
    (∀ v : NumInput, Shiprocket.parseNumber v = (Vyapar.parseNumber v).getD 0) ∧
    (∀ s : String, Shiprocket.stripNonNumeric s = s →
      Amazon.parseAmount (NumInput.str s) = Vyapar.parseNumber (NumInput.str s)) ∧
    Vyapar.parseNumber (NumInput.str "₹1,234.50") = some (2469 / 2) ∧
    Shiprocket.parseNumber (NumInput.str "₹1,234.50") = 2469 / 2 ∧
    Amazon.parseAmount (NumInput.str "₹1,234.50") = none := by
  refine ⟨?_, ?_, ?_, ?_, by rfl⟩
  · intro v
    cases v with
    | null => rfl
    | str s =>
      simp only [Shiprocket.parseNumber, Vyapar.parseNumber]
      by_cases hs : s = ""
      · rw [if_pos hs, if_pos hs]
        rfl
      · rw [if_neg hs, if_neg hs]
        cases jsNumber (Shiprocket.stripNonNumeric s) <;> rfl
    | num q => rfl
  · intro s hstrip
    simp only [Amazon.parseAmount, Vyapar.parseNumber, hstrip]
  · have h2 : Vyapar.parseNumber (NumInput.str "₹1,234.50") =
        some (((1234 : ℕ) : ℚ) + ((50 : ℕ) : ℚ) / 10 ^ 2) := rfl
    rw [h2]
    simp only [Option.some.injEq]
    norm_num
  · have h3 : Shiprocket.parseNumber (NumInput.str "₹1,234.50") =
        ((1234 : ℕ) : ℚ) + ((50 : ℕ) : ℚ) / 10 ^ 2 := rfl
    rw [h3]
    norm_num

/-- C6 witness: the agreement clause at a plain numeric string, which the
strip leaves unchanged. -/
theorem c6_witness :
    Amazon.parseAmount (NumInput.str "1234.50") = Vyapar.parseNumber (NumInput.str "1234.50") :=
  c6_amount_parsers_amended.2.1 "1234.50" (by decide)

/-- C7: the cancelled-shipments purge reports, for any inputs, the number of
cancelled ids found and the exact counts of item and order rows whose
shipment id is cancelled — counted before deleting, zeros for an empty feed
— and the surviving stores hold exactly the rows whose shipment id is not
cancelled (an empty feed deletes nothing). -/
theorem c7_cancellation_purge (orders : List FlipkartSync.FKOrderRow)
    (items : List FlipkartSync.FKItemRow) (ids : List String) :
    (FlipkartCancel.purgeCancelled orders items ids).2.2 =
      (if ids = [] then ⟨0, 0, 0⟩ else
        (⟨ids.length, (orders.filter (fun r => r.shipment_id ∈ ids)).length,
          (items.filter (fun r => r.shipment_id ∈ ids)).length⟩ : FlipkartCancel.PurgeResult)) ∧
    (∀ r, r ∈ (FlipkartCancel.purgeCancelled orders items ids).1 ↔
      r ∈ orders ∧ r.shipment_id ∉ ids) ∧
    (∀ r, r ∈ (FlipkartCancel.purgeCancelled orders items ids).2.1 ↔
      r ∈ items ∧ r.shipment_id ∉ ids) := by
  by_cases hids : ids = []
  · subst hids
    refine ⟨rfl, ?_, ?_⟩ <;> intro r <;> simp [FlipkartCancel.purgeCancelled]
  · refine ⟨?_, ?_, ?_⟩
    · simp [FlipkartCancel.purgeCancelled, hids]
    · intro r
      simp [FlipkartCancel.purgeCancelled, hids, List.mem_filter]
    · intro r
      simp [FlipkartCancel.purgeCancelled, hids, List.mem_filter]

/-- C8: the vyapar normalizer drops rows instead of failing: every kept
sales row comes from a sheet row whose transaction type lower-cases to sale
and whose invoice number and date parsed to truthy values; conversely every
such sheet row produces its canonical kept row; and every item row in the
output references an invoice of the kept sales rows, so item lines with
unknown invoices are dropped. -/
theorem c8_vyapar_row_filtering :
    (∀ (pdv : NumInput → Option String) (rows : List Vyapar.SaleReportRow)
      (out : Vyapar.VSaleRow), out ∈ Vyapar.salesRows pdv rows →
      ∃ raw ∈ rows, lowerStr (raw.transactionType.getD "") = "sale" ∧
        Vyapar.truthyInt (Vyapar.parseInteger raw.invoiceNo) = some out.invoice_no ∧
        truthyStr (pdv raw.date) = some out.sale_date) ∧
    (∀ (pdv : NumInput → Option String) (rows : List Vyapar.SaleReportRow)
      (raw : Vyapar.SaleReportRow), raw ∈ rows →
      lowerStr (raw.transactionType.getD "") = "sale" →
      ∀ inv : ℤ, Vyapar.truthyInt (Vyapar.parseInteger raw.invoiceNo) = some inv →
      ∀ d : String, truthyStr (pdv raw.date) = some d →
      (⟨inv, d, truthyStr (raw.partyName.map String.trim), raw.phoneNo.map String.trim⟩ :
        Vyapar.VSaleRow) ∈ Vyapar.salesRows pdv rows) ∧
    (∀ (valid : List ℤ) (rows : List Vyapar.SaleItemsRow) (r : Vyapar.VItemRow),
      r ∈ Vyapar.itemsRows valid rows → r.invoice_no ∈ valid) :=
  ⟨fun pdv rows out h => Vyapar.salesRows_sound pdv rows out h,
    fun pdv rows raw hmem hsale inv hinv d hd =>
      Vyapar.salesRows_complete pdv rows raw hmem hsale inv hinv d hd,
    fun valid rows r h => Vyapar.itemsRows_invoice_valid valid rows r h⟩

/-- C8 witness: the completeness clause at one concrete parseable sale row,
which survives into the sales output. -/
theorem c8_witness :
    (⟨12, "2026-01-31", none, none⟩ : Vyapar.VSaleRow) ∈
      Vyapar.salesRows (fun _ => some "2026-01-31")
        [⟨NumInput.str "31/01/2026", none, none, NumInput.str "12", some "Sale"⟩] :=
  c8_vyapar_row_filtering.2.1 (fun _ => some "2026-01-31")
    [⟨NumInput.str "31/01/2026", none, none, NumInput.str "12", some "Sale"⟩]
    ⟨NumInput.str "31/01/2026", none, none, NumInput.str "12", some "Sale"⟩
    (by decide) (by decide) 12 (by with_unfolding_all rfl) "2026-01-31" (by decide)

/-- C9: for every (invoice, sku) key, the vyapar item output holds exactly
one row for the key when the Sale Items sheet contributes at least one valid
line to it — its quantity the sum of the contributing lines' quantities and
its net price the two-decimal rounding of the sum of their net prices, in
sheet order — and no row otherwise. -/
theorem c9_item_aggregation (pdv : NumInput → Option String)
    (reportRows : List Vyapar.SaleReportRow) (itemsIn : List Vyapar.SaleItemsRow)
    (inv : ℤ) (sku : String) :
    (Vyapar.vyaparItemsOut pdv reportRows itemsIn).filter
        (fun r => r.invoice_no = inv ∧ r.sku = sku) =
      if Vyapar.contributions (Vyapar.validInvoices pdv reportRows) itemsIn inv sku = []
      then []
      else [⟨inv, sku,
        ((Vyapar.contributions (Vyapar.validInvoices pdv reportRows) itemsIn inv sku).map
          Prod.fst).sum,
        toFixed2 (((Vyapar.contributions (Vyapar.validInvoices pdv reportRows) itemsIn
          inv sku).map Prod.snd).sum)⟩] := by
  unfold Vyapar.vyaparItemsOut
  rw [Vyapar.itemsRows_filter_key]
  have hfold : alookup (Vyapar.itemAggregate (Vyapar.validInvoices pdv reportRows) itemsIn)
      (inv, sku) =
      (Vyapar.contributions (Vyapar.validInvoices pdv reportRows) itemsIn inv sku).foldl
        (Vyapar.addContrib inv sku) none :=
    Vyapar.alookup_itemAggregate_fold (Vyapar.validInvoices pdv reportRows) itemsIn inv sku []
  by_cases hc : Vyapar.contributions (Vyapar.validInvoices pdv reportRows) itemsIn inv sku = []
  · rw [if_pos hc]
    rw [hc] at hfold
    rw [hfold]
    rfl
  · rw [if_neg hc]
    rw [Vyapar.addContrib_fold_none inv sku _ hc] at hfold
    rw [hfold]

/-- C10: the amazon sync drops every fetched order whose channel name
upper-cases to NON_AMAZON before normalization and persistence: such an
order is not among the filtered orders, every upserted order row and item
row is built from a kept order, and the reported orders_processed and
items_processed count only the kept orders and their items. -/
theorem c10_non_amazon_filtered (pd : String → Option String) (nowIso : String)
    (orders : List Amazon.AZOrder) (o : Amazon.AZOrder) (hmem : o ∈ orders)
    (hch : o.channelName.map upperStr = some "NON_AMAZON") :
    o ∉ Amazon.filteredOrders orders ∧
    (∀ r ∈ Amazon.azOrdersToUpsert pd nowIso orders, ∃ o2 ∈ orders,
      Amazon.keepOrder o2 = true ∧ r = Amazon.azOrderRowOf pd nowIso o2) ∧
    (∀ r ∈ Amazon.azItemsToUpsert (Amazon.filteredOrders orders), ∃ o2 ∈ orders,
      Amazon.keepOrder o2 = true ∧ r.order_id = o2.orderId) ∧
    Amazon.azOrdersProcessed pd nowIso orders = (Amazon.filteredOrders orders).length ∧
    Amazon.azItemsProcessed orders =
      ((Amazon.filteredOrders orders).map (fun o2 => o2.orderItems.length)).sum := by
  refine ⟨?_, ?_, ?_, ?_, ?_⟩
  · intro hmem2
    rcases List.mem_filter.mp hmem2 with ⟨_, hkeep⟩
    rw [Amazon.keepOrder, hch] at hkeep
    simp at hkeep
  · intro r hr
    rcases List.mem_map.mp hr with ⟨o2, ho2, hro⟩
    rcases List.mem_filter.mp ho2 with ⟨ho2m, hk⟩
    exact ⟨o2, ho2m, hk, hro.symm⟩
  · intro r hr
    rcases List.mem_flatMap.mp hr with ⟨o2, ho2, hri⟩
    rcases List.mem_map.mp hri with ⟨it, _, hro⟩
    rcases List.mem_filter.mp ho2 with ⟨ho2m, hk⟩
    refine ⟨o2, ho2m, hk, ?_⟩
    rw [← hro]
    rfl
  · simp [Amazon.azOrdersProcessed, Amazon.azOrdersToUpsert]
  · simp only [Amazon.azItemsProcessed, Amazon.azItemsToUpsert, List.length_flatMap]
    refine congrArg List.sum (List.map_congr_left ?_)
    intro o2 _
    simp

/-- C10 witness: the exclusion clause at a concrete batch: the order whose
channel is non_amazon (upper-cased NON_AMAZON) is not among the filtered
orders. -/
theorem c10_witness :
    (⟨"X", some "non_amazon", none, none, none, none, none, []⟩ : Amazon.AZOrder) ∉
      Amazon.filteredOrders
        [⟨"X", some "non_amazon", none, none, none, none, none, []⟩,
          ⟨"Y", some "Amazon.in", none, none, none, none, none, []⟩] :=
  (c10_non_amazon_filtered (fun _ => none) "now"
    [⟨"X", some "non_amazon", none, none, none, none, none, []⟩,
      ⟨"Y", some "Amazon.in", none, none, none, none, none, []⟩]
    ⟨"X", some "non_amazon", none, none, none, none, none, []⟩
    (by decide) (by decide)).1

end Trevito
